import Mathlib

/-!
# Self-updating client (`client/main.go`)

A shallow embedding of the Go client: the normal start-up path
(`main`, `checkAndPerformUpdate`, `fetchLatestInfo`, `downloadFile`) and the
installer path (`doUpdateInstall`, `copyFileContents`).

The program is a sequence of operating-system calls.  Each call is a Lean
function on an explicit `World` (file system, spawned processes, event trace).

The file system keeps names and files apart.  A path denotes a directory
entry (`World.loc`: two spellings of one name, such as `/opt/app` and
`/opt/./app`, denote the same entry); an entry is a link to a file or a
symbolic link to another path (`Node`); files are numbered and two entries may
link to the same file (hard links).  The calls have their POSIX meaning:
`os.Remove` and `os.Rename` act on the entry a path denotes; `os.Open`,
`os.Create` and `os.Chmod` follow symbolic links to the file.

A call fails either for a reason visible in the file system (the entry is
missing) or because the environment says so (`Env`: permission, lock,
cross-device link, a path component that is not a directory, network, disk
full ...).  `Env` holds one outcome per call site, so that every combination
of failures is a possible run.
-/

namespace SelfUpdate

/-! ## Data model -/

abbrev Path := String

abbrev Bytes := List Nat

/-- The identity of a directory entry: where in the name space a path points. -/
abbrev Loc := Nat

/-- The number of a file (its inode). -/
abbrev Ino := Nat

/-- A regular file: its contents and its executable permission bit. -/
structure File where
  bytes : Bytes
  exec : Bool
deriving DecidableEq, Repr

/-- What a directory entry holds: a link to a file, or a symbolic link to a
path. -/
inductive Node where
  | file (ino : Ino)
  | symlink (dest : Path)
deriving DecidableEq, Repr

/-- Go `*os.File`: the name it was opened under and the file it is open on. -/
structure Handle where
  name : Path
  ino : Ino
deriving DecidableEq, Repr

/-- Go `const CurrentVersion = "1.0.0"`. -/
def CurrentVersion : String := "1.0.0"

/-- Go `type LatestInfo struct`, the decoded `latest.json`. -/
structure LatestInfo where
  Version : String
  URLWindows : String
  URLDarwin : String
  URLLinux : String
deriving DecidableEq, Repr

/-- Go `error` values, as far as the program tells them apart
(`os.IsNotExist`). -/
inductive OsError where
  | notExist
  | other
deriving DecidableEq, Repr

/-- The result of `http.Get`: a transport error, or a response with its
status code and the body that was delivered. -/
inductive HttpResult where
  | err
  | resp (status : Nat) (body : Bytes)
deriving DecidableEq, Repr

/-- One observable action of the process, in program order.  A `log` entry
carries the format string of the `log.Printf` call. -/
inductive Event where
  | stdout (msg : String)
  | log (msg : String)
  | httpGet (url : String)
  | createTemp (pattern : String)
  | copy (dst : Path)
  | chmod (p : Path)
  | remove (p : Path)
  | rename (src dst : Path)
  | openRead (p : Path)
  | create (p : Path)
  | sleep (seconds : Nat)
  | executable
  | start (argv : List String)
deriving DecidableEq, Repr

/-- How a Go function hands control back: it returns to its caller, or it
ends the process (`os.Exit`, `log.Fatalf`). -/
inductive Outcome where
  | returned
  | exited (code : Nat)
deriving DecidableEq, Repr

/-- The state outside the process.  `loc` is the directory entry each path
denotes, `dir` what each entry holds, `files` the files by number, of which
those below `next` exist; `symlinkLimit` is the number of symbolic links the
system follows in one lookup; `procs` are the processes started (their
argument vectors) and `trace` the actions so far. -/
structure World where
  loc : Path → Loc
  symlinkLimit : Nat
  dir : Loc → Option Node
  files : Ino → File
  next : Ino
  procs : List (List String)
  trace : List Event

/-- The environment of one run: the platform and the outcome of every call the
file system alone does not determine.  A `Fault` field set to `true` makes
that call fail whatever the file system holds (permission, lock, read-only or
other device, a path component that is not a directory ...). -/
structure Env where
  /-- Go `runtime.GOOS`. -/
  goos : String
  /-- What `http.Get` yields in `fetchLatestInfo`. -/
  manifestGet : String → HttpResult
  /-- What `json.NewDecoder(body).Decode` yields: `none` is a decoding error. -/
  jsonDecode : Bytes → Option LatestInfo
  /-- What `http.Get` yields in `downloadFile`. -/
  binaryGet : String → HttpResult
  /-- The name `os.CreateTemp` picks; `none` when it fails. -/
  tempName : Option Path
  /-- With `some n`, `io.Copy` fails after it wrote `n` bytes. -/
  copyFault : Option Nat
  chmodFault : Bool
  /-- What `os.Executable` yields; `none` when it fails. -/
  executable : Option Path
  /-- Whether `cmd.Start` fails. -/
  startFault : Bool
  /-- For `os.Remove(targetPath)` in the installer. -/
  removeTargetFault : Bool
  /-- For `os.Remove` of the temporary file, deferred in the client and after
  the fallback copy in the installer. -/
  removeTmpFault : Bool
  renameFault : Bool
  openFault : Bool
  createFault : Bool

def World.emit (w : World) (e : Event) : World :=
  { w with trace := w.trace ++ [e] }

/-- Put `n` into the directory entry `l` (`none` empties it). -/
def World.setEntry (w : World) (l : Loc) (n : Option Node) : World :=
  { w with dir := fun k => if k = l then n else w.dir k }

/-- Replace the file number `i` by `f`. -/
def World.setFile (w : World) (i : Ino) (f : File) : World :=
  { w with files := fun k => if k = i then f else w.files k }

/-- A new file `f`; its number is the old `w.next`. -/
def World.alloc (w : World) (f : File) : World :=
  { w with files := fun k => if k = w.next then f else w.files k, next := w.next + 1 }

/-! ## Path lookup -/

/-- Follow symbolic links from the entry `l`, at most `n - 1` of them, to an
entry that is not a symbolic link (it may be empty).  `none`: too many
links. -/
def follow (loc : Path → Loc) (dir : Loc → Option Node) : Nat → Loc → Option Loc
  | 0, _ => none
  | n + 1, l =>
    match dir l with
    | some (.symlink dest) => follow loc dir n (loc dest)
    | _ => some l

/-- The entry a path leads to when symbolic links are followed. -/
def resolve (w : World) (p : Path) : Option Loc :=
  follow w.loc w.dir (w.symlinkLimit + 1) (w.loc p)

/-- The file a path leads to when symbolic links are followed. -/
def inoAt (w : World) (p : Path) : Option Ino :=
  match resolve w p with
  | none => none
  | some l =>
    match w.dir l with
    | some (.file i) => if i < w.next then some i else none
    | _ => none

/-- Whether two paths name the same file: the same entry, or two links to
one file. -/
def sameFile (w : World) (src dst : Path) : Bool :=
  decide (w.loc src = w.loc dst) ||
    match w.dir (w.loc src), w.dir (w.loc dst) with
    | some (.file i), some (.file j) => decide (i = j)
    | _, _ => false

/-! ## Operating-system calls -/

/-- Go `os.Remove(p)`: removes the entry `p` denotes, a symbolic link itself
and not what it points to; other links to the file stay.  A missing entry is
the error `notExist`. -/
def osRemove (fault : Bool) (w : World) (p : Path) : World × Except OsError Unit :=
  let w := w.emit (.remove p)
  if fault then (w, .error .other)
  else
    match w.dir (w.loc p) with
    | none => (w, .error .notExist)
    | some _ => (w.setEntry (w.loc p) none, .ok ())

/-- Go `os.Rename(src, dst)`: moves the entry of `src` to `dst`, replacing
what is there, without following a symbolic link at either end.  When both
name the same file the call does nothing and succeeds. -/
def osRename (fault : Bool) (w : World) (src dst : Path) : World × Except OsError Unit :=
  let w := w.emit (.rename src dst)
  match w.dir (w.loc src) with
  | none => (w, .error (if fault then .other else .notExist))
  | some n =>
    if sameFile w src dst then (w, .ok ())
    else if fault then (w, .error .other)
    else ((w.setEntry (w.loc dst) (some n)).setEntry (w.loc src) none, .ok ())

/-- Go `os.Chmod(p, 0755)`: follows symbolic links. -/
def osChmod (fault : Bool) (w : World) (p : Path) : World × Except OsError Unit :=
  let w := w.emit (.chmod p)
  if fault then (w, .error .other)
  else
    match inoAt w p with
    | none => (w, .error .notExist)
    | some i => (w.setFile i { w.files i with exec := true }, .ok ())

/-- Go `(*os.File).Chmod(0755)`, on the open file. -/
def fChmod (fault : Bool) (w : World) (f : Handle) : World × Except OsError Unit :=
  let w := w.emit (.chmod f.name)
  if fault then (w, .error .other)
  else (w.setFile f.ino { w.files f.ino with exec := true }, .ok ())

/-- Go `os.Open(p)`: open for reading, following symbolic links. -/
def osOpen (fault : Bool) (w : World) (p : Path) : World × Except OsError Handle :=
  let w := w.emit (.openRead p)
  if fault then (w, .error .other)
  else
    match inoAt w p with
    | none => (w, .error .notExist)
    | some i => (w, .ok ⟨p, i⟩)

/-- Go `os.Create(p)`: follows symbolic links; truncates the file that is
there, or makes a new empty file (mode 0666, without the executable bit) in
the empty entry. -/
def osCreate (fault : Bool) (w : World) (p : Path) : World × Except OsError Handle :=
  let w := w.emit (.create p)
  if fault then (w, .error .other)
  else
    match resolve w p with
    | none => (w, .error .other)
    | some l =>
      match w.dir l with
      | none => ((w.alloc ⟨[], false⟩).setEntry l (some (.file w.next)), .ok ⟨p, w.next⟩)
      | some (.file i) =>
        if i < w.next then (w.setFile i { w.files i with bytes := [] }, .ok ⟨p, i⟩)
        else (w, .error .other)
      | some (.symlink _) => (w, .error .other)

/-- Go `os.CreateTemp("", "myapp-update-")`: a new empty file (mode 0600) under
a name that was not in use. -/
def osCreateTemp (env : Env) (w : World) : World × Except OsError Handle :=
  let w := w.emit (.createTemp "myapp-update-")
  match env.tempName with
  | none => (w, .error .other)
  | some p =>
    match w.dir (w.loc p) with
    | some _ => (w, .error .other)
    | none =>
      ((w.alloc ⟨[], false⟩).setEntry (w.loc p) (some (.file w.next)), .ok ⟨p, w.next⟩)

/-- Go `io.Copy(dst, src)` into a file that was just created or truncated:
on success the file holds all of `data`; on failure after `n` bytes it holds
the first `n`. -/
def ioCopy (fault : Option Nat) (w : World) (dst : Handle) (data : Bytes) :
    World × Except OsError Unit :=
  let w := w.emit (.copy dst.name)
  match fault with
  | none => (w.setFile dst.ino { w.files dst.ino with bytes := data }, .ok ())
  | some n => (w.setFile dst.ino { w.files dst.ino with bytes := data.take n }, .error .other)

/-- The bytes an open file delivers to a reader. -/
def readAll (w : World) (src : Handle) : Bytes :=
  (w.files src.ino).bytes

/-- Go `os.Executable()`. -/
def osExecutable (env : Env) (w : World) : World × Except OsError Path :=
  let w := w.emit .executable
  match env.executable with
  | none => (w, .error .other)
  | some p => (w, .ok p)

/-- Go `exec.Command(argv...).Start()`: on success a new process runs. -/
def cmdStart (env : Env) (w : World) (argv : List String) : World × Except OsError Unit :=
  let w := w.emit (.start argv)
  if env.startFault then (w, .error .other)
  else ({ w with procs := w.procs ++ [argv] }, .ok ())

/-! ## The client -/

/-- Go `fetchLatestInfo`. -/
def fetchLatestInfo (env : Env) (url : String) (w : World) :
    World × Except OsError LatestInfo :=
  let w := w.emit (.httpGet url)
  match env.manifestGet url with
  | .err => (w, .error .other)
  | .resp status body =>
    if status ≠ 200 then (w, .error .other)
    else
      match env.jsonDecode body with
      | none => (w, .error .other)
      | some info => (w, .ok info)

/-- Go `downloadFile`; the result is `tmpf.Name()`. -/
def downloadFile (env : Env) (url : String) (w : World) : World × Except OsError Path :=
  let w := w.emit (.httpGet url)
  match env.binaryGet url with
  | .err => (w, .error .other)
  | .resp _ body =>
    match osCreateTemp env w with
    | (w, .error e) => (w, .error e)
    | (w, .ok tmpf) =>
      match ioCopy env.copyFault w tmpf body with
      | (w, .error e) => (w, .error e)
      | (w, .ok _) =>
        match fChmod env.chmodFault w tmpf with
        | (w, .error _) => (w.emit (.log "Warning: chmod failed: %v"), .ok tmpf.name)
        | (w, .ok _) => (w, .ok tmpf.name)

/-- The `switch runtime.GOOS` of `checkAndPerformUpdate`. -/
def selectURL (goos : String) (info : LatestInfo) : String :=
  if goos = "windows" then info.URLWindows
  else if goos = "darwin" then info.URLDarwin
  else info.URLLinux

/-- Go `checkAndPerformUpdate`.  The deferred `os.Remove(tmpFile)` runs on the
two `return`s that follow it and not on `os.Exit(0)`. -/
def checkAndPerformUpdate (env : Env) (latestURL : String) (w : World) : World × Outcome :=
  match fetchLatestInfo env latestURL w with
  | (w, .error _) => (w.emit (.log "Failed to fetch latest info: %v"), .returned)
  | (w, .ok info) =>
    if info.Version = CurrentVersion then
      (w.emit (.log "Already at the latest version."), .returned)
    else
      let w := w.emit (.log "A newer version (%s) is available! Current is %s")
      let downloadURL := selectURL env.goos info
      match downloadFile env downloadURL w with
      | (w, .error _) => (w.emit (.log "Error downloading file: %v"), .returned)
      | (w, .ok tmpFile) =>
        let w := w.emit (.log "Downloaded new version to %s")
        match osExecutable env w with
        | (w, .error _) =>
          let w := w.emit (.log "Could not get executable path: %v")
          ((osRemove env.removeTmpFault w tmpFile).1, .returned)
        | (w, .ok selfPath) =>
          match cmdStart env w [selfPath, "-update-install", tmpFile, selfPath] with
          | (w, .error _) =>
            let w := w.emit (.log "Could not start updater: %v")
            ((osRemove env.removeTmpFault w tmpFile).1, .returned)
          | (w, .ok _) =>
            (w.emit (.log
              "Updater started. Exiting this process to allow the updater to replace the binary."),
              .exited 0)

/-- Go `copyFileContents`: the source is read after the destination has been
created. -/
def copyFileContents (env : Env) (w : World) (src dst : Path) : World × Except OsError Unit :=
  match osOpen env.openFault w src with
  | (w, .error e) => (w, .error e)
  | (w, .ok source) =>
    match osCreate env.createFault w dst with
    | (w, .error e) => (w, .error e)
    | (w, .ok destination) => ioCopy env.copyFault w destination (readAll w source)

/-- The first step of the installer: `os.Remove(targetPath)`, where a missing
file is passed over in silence and any other error is only logged. -/
def removeOld (env : Env) (w : World) (targetPath : Path) : World :=
  match osRemove env.removeTargetFault w targetPath with
  | (w, .error e) =>
    if e ≠ .notExist then w.emit (.log "Warning: could not remove old file: %v") else w
  | (w, .ok _) => w

/-- The REPLACE step of `doUpdateInstall`: `os.Remove(targetPath)`,
`os.Rename(tmpfile, targetPath)` and, when the rename fails,
`copyFileContents` followed by `os.Remove(tmpfile)`, whose error is dropped.
The flag is `false` when `log.Fatalf` is reached. -/
def replaceStep (env : Env) (w : World) (tmpfile targetPath : Path) : World × Bool :=
  let w := removeOld env w targetPath
  match osRename env.renameFault w tmpfile targetPath with
  | (w, .ok _) => (w, true)
  | (w, .error _) =>
    let w := w.emit (.log "Rename failed, fallback to copy approach. Error: %v")
    match copyFileContents env w tmpfile targetPath with
    | (w, .error _) => (w.emit (.log "Could not copy new file to target: %v"), false)
    | (w, .ok _) => ((osRemove env.removeTmpFault w tmpfile).1, true)

/-- The steps of `doUpdateInstall` after REPLACE: `os.Chmod(targetPath, 0755)`
unless on Windows, its error dropped, and the start of the updated binary, its
error only logged. -/
def relaunch (env : Env) (w : World) (targetPath : Path) : World :=
  let w := if env.goos ≠ "windows" then (osChmod env.chmodFault w targetPath).1 else w
  match cmdStart env w [targetPath] with
  | (w, .error _) => w.emit (.log "Could not restart the updated binary: %v")
  | (w, .ok _) => w

/-- Go `doUpdateInstall`; `args` is `flag.Args()`.  `log.Fatalf` ends the
process with status 1. -/
def doUpdateInstall (env : Env) (args : List String) (w : World) : World × Outcome :=
  match args with
  | tmpfile :: targetPath :: _ =>
    let w := w.emit (.log "Updater started with tmpfile=%s, targetPath=%s")
    let w := w.emit (.sleep 1)
    match replaceStep env w tmpfile targetPath with
    | (w, false) => (w, .exited 1)
    | (w, true) =>
      let w := relaunch env w targetPath
      (w.emit (.log "Update installed. Exiting updater."), .exited 0)
  | _ => (w.emit (.log "Updater usage: -update-install <tmpfile> <targetPath>"), .returned)

/-- Go `main`; `updaterFlag` and `args` are what `flag.Parse` found on the
command line. -/
def main (env : Env) (updaterFlag : Bool) (args : List String) (w : World) : World × Outcome :=
  if updaterFlag then doUpdateInstall env args w
  else
    let w := w.emit (.stdout ("Hello! I am version " ++ CurrentVersion))
    match checkAndPerformUpdate env "https://nametag.magnarelli.net/latest.json" w with
    | (w, .exited c) => (w, .exited c)
    | (w, .returned) =>
      let w := w.emit
        (.stdout "Continuing normal operation... (pretend there's more going on here)")
      let w := w.emit (.sleep 5)
      (w.emit (.stdout "Done."), .returned)

/-- The exit status of the process: a Go program whose `main` returns exits
with status 0. -/
def exitStatus : Outcome → Nat
  | .returned => 0
  | .exited c => c

/-! ## Observations on a run -/

/-- Whether a call reported an error. -/
def failed {α : Type} : Except OsError α → Bool
  | .ok _ => false
  | .error _ => true

/-- The actions a run added to the trace: `w` before, `w'` after. -/
def newEvents (w w' : World) : List Event :=
  w'.trace.drop w.trace.length

/-- The URLs requested, in order. -/
def gets : List Event → List String
  | [] => []
  | .httpGet u :: es => u :: gets es
  | _ :: es => gets es

/-- The paths `os.Remove` was called on, in order. -/
def removes : List Event → List Path
  | [] => []
  | .remove p :: es => p :: removes es
  | _ :: es => removes es

/-- What the directory entry of a path holds; `none`: there is no such name. -/
def entryAt (w : World) (p : Path) : Option Node :=
  w.dir (w.loc p)

/-- The file a reader of the path gets, symbolic links followed. -/
def fileAt (w : World) (p : Path) : Option File :=
  (inoAt w p).map w.files

/-- The bytes a reader of the path gets, if it leads to a file. -/
def bytesAt (w : World) (p : Path) : Option Bytes :=
  (fileAt w p).map File.bytes

/-- The executable bit of the file the path leads to, if there is one. -/
def execAt (w : World) (p : Path) : Option Bool :=
  (fileAt w p).map File.exec

/-- The world `w'` keeps what `w` holds: the names, every entry that is
there and every file that exists. -/
def Keeps (w w' : World) : Prop :=
  w'.loc = w.loc ∧ w'.symlinkLimit = w.symlinkLimit ∧
  (∀ l, (w.dir l).isSome → w'.dir l = w.dir l) ∧
  w.next ≤ w'.next ∧ ∀ i, i < w.next → w'.files i = w.files i

/-- The world in which `checkAndPerformUpdate` starts the download: the
manifest was requested and the new version announced. -/
abbrev beforeDownload (w : World) (latestURL : String) : World :=
  (w.emit (.httpGet latestURL)).emit
    (.log "A newer version (%s) is available! Current is %s")

/-- The world in which the installer starts REPLACE: after its first log line
and the sleep. -/
abbrev afterSleep (w : World) : World :=
  (w.emit (.log "Updater started with tmpfile=%s, targetPath=%s")).emit (.sleep 1)

/-- The world in which the installer attempts the rename: after the removal of
the old file. -/
def beforeRename (env : Env) (w : World) (targetPath : Path) : World :=
  removeOld env (afterSleep w) targetPath

/-- Whether the rename of the installer fails. -/
def renameFailed (env : Env) (w : World) (tmpfile targetPath : Path) : Bool :=
  failed (osRename env.renameFault (beforeRename env w targetPath) tmpfile targetPath).2

/-- Whether the fallback copy fails, in the world the failed rename leaves. -/
def copyFailed (env : Env) (w : World) (tmpfile targetPath : Path) : Bool :=
  failed (copyFileContents env
    ((osRename env.renameFault (beforeRename env w targetPath) tmpfile targetPath).1.emit
      (.log "Rename failed, fallback to copy approach. Error: %v")) tmpfile targetPath).2

/-- The staging file of a run of `checkAndPerformUpdate`: the name that
`downloadFile` returned, when the run got that far. -/
def stagedFile (env : Env) (latestURL : String) (w : World) : Option Path :=
  match fetchLatestInfo env latestURL w with
  | (_, .error _) => none
  | (w, .ok info) =>
    if info.Version = CurrentVersion then none
    else
      match downloadFile env (selectURL env.goos info)
          (w.emit (.log "A newer version (%s) is available! Current is %s")) with
      | (_, .error _) => none
      | (_, .ok tmp) => some tmp

/-! ## Sample inputs -/

/-- The names of the sample machines: `/opt/./app` is a second spelling of
`/opt/app`; every name not listed denotes the entry 0, which is empty. -/
def sampleLoc (p : Path) : Loc :=
  if p = "/opt/app" then 1
  else if p = "/opt/./app" then 1
  else if p = "/tmp/new" then 2
  else if p = "/tmp/myapp-update-1" then 3
  else if p = "/opt/current" then 4
  else if p = "/opt/hard" then 5
  else 0

/-- An environment in which nothing fails: Linux, a server that offers
version 2.0.0. -/
def okEnv : Env where
  goos := "linux"
  manifestGet := fun _ => .resp 200 [1]
  jsonDecode := fun _ => some ⟨"2.0.0", "http://h/win", "http://h/mac", "http://h/bin"⟩
  binaryGet := fun _ => .resp 200 [7, 8, 9, 10]
  tempName := some "/tmp/myapp-update-1"
  copyFault := none
  chmodFault := false
  executable := some "/opt/app"
  startFault := false
  removeTargetFault := false
  removeTmpFault := false
  renameFault := false
  openFault := false
  createFault := false

/-- A machine with the running program at `/opt/app` (file 0) and nothing
else. -/
def appWorld : World where
  loc := sampleLoc
  symlinkLimit := 40
  dir := fun l => if l = 1 then some (.file 0) else none
  files := fun _ => ⟨[1, 2, 3], true⟩
  next := 1
  procs := []
  trace := []

/-- A machine in the middle of an update: the old program at `/opt/app`
(file 0) and the downloaded one at `/tmp/new` (file 1), not marked
executable. -/
def stagedWorld : World where
  loc := sampleLoc
  symlinkLimit := 40
  dir := fun l => if l = 1 then some (.file 0) else if l = 2 then some (.file 1) else none
  files := fun i => if i = 1 then ⟨[7, 8, 9, 10], false⟩ else ⟨[1, 2, 3], true⟩
  next := 2
  procs := []
  trace := []

/-- The staged machine with `/opt/current`, a symbolic link to the staging
file `/tmp/new`. -/
def symlinkWorld : World :=
  { stagedWorld with
    dir := fun l =>
      if l = 1 then some (.file 0) else if l = 2 then some (.file 1)
      else if l = 4 then some (.symlink "/tmp/new") else none }

/-- The staged machine with `/opt/hard`, a second link to the staging file. -/
def hardLinkWorld : World :=
  { stagedWorld with
    dir := fun l =>
      if l = 1 then some (.file 0) else if l = 2 then some (.file 1)
      else if l = 5 then some (.file 1) else none }

/-- A machine with the downloaded program at `/tmp/new` and no `/opt/app`. -/
def freshWorld : World :=
  { stagedWorld with dir := fun l => if l = 2 then some (.file 1) else none }

/-- The same server offering the older version 0.9.0. -/
def olderEnv : Env :=
  { okEnv with
    jsonDecode := fun _ => some ⟨"0.9.0", "http://h/win", "http://h/mac", "http://h/bin"⟩ }

/-- The same server offering the running version 1.0.0. -/
def sameEnv : Env :=
  { okEnv with
    jsonDecode := fun _ => some ⟨"1.0.0", "http://h/win", "http://h/mac", "http://h/bin"⟩ }

/-- A download that breaks off after two bytes. -/
def brokenCopyEnv : Env :=
  { okEnv with copyFault := some 2 }

/-- An installer whose `os.Chmod` is refused. -/
def chmodFailEnv : Env :=
  { okEnv with chmodFault := true }

/-- An installer whose target cannot be removed, renamed onto or created
(a read-only directory). -/
def readOnlyTargetEnv : Env :=
  { okEnv with removeTargetFault := true, renameFault := true, createFault := true }

/-- An installer that cannot reach the target at all: removal, rename and
creation fail with an error that is not not-exist (a directory on the way that
may not be searched, or a path component that is not a directory). -/
def unreachableTargetEnv : Env :=
  { okEnv with removeTargetFault := true, renameFault := true, createFault := true }

/-- An installer that cannot move or remove the staging file but can read it
(a staging directory it may not write to). -/
def keptStagingEnv : Env :=
  { okEnv with renameFault := true, removeTmpFault := true }

/-- An installer that may not change the directory of the target: removal of
the target and rename onto it are refused; files that exist can be opened and
rewritten. -/
def lockedDirEnv : Env :=
  { okEnv with removeTargetFault := true, renameFault := true }

/-- An installer that cannot remove the old file. -/
def noRemoveEnv : Env :=
  { okEnv with removeTargetFault := true }

/-- A machine on which the installer cannot be started. -/
def noStartEnv : Env :=
  { okEnv with startFault := true }

/-! ## Auxiliary facts -/

theorem newEvents_eq (w w' : World) (evs : List Event) (h : w'.trace = w.trace ++ evs) :
    newEvents w w' = evs := by
  simp [newEvents, h]

theorem gets_append (a b : List Event) : gets (a ++ b) = gets a ++ gets b := by
  induction a with
  | nil => rfl
  | cons e es ih => cases e <;> simp [gets, ih]

theorem removes_append (a b : List Event) : removes (a ++ b) = removes a ++ removes b := by
  induction a with
  | nil => rfl
  | cons e es ih => cases e <;> simp [removes, ih]

/-- Following links ends at an entry that is not a symbolic link. -/
theorem follow_not_symlink (loc : Path → Loc) (dir : Loc → Option Node) (n : Nat) :
    ∀ l l', follow loc dir n l = some l' → ∀ q, dir l' ≠ some (.symlink q) := by
  induction n with
  | zero => intro l l' h; simp [follow] at h
  | succ n ih =>
    intro l l' h q
    unfold follow at h
    cases hd : dir l with
    | none =>
      simp only [hd] at h
      cases h
      rw [hd]
      simp
    | some node =>
      cases node with
      | file i =>
        simp only [hd] at h
        cases h
        rw [hd]
        simp
      | symlink d =>
        simp only [hd] at h
        exact ih _ _ h q

/-- Following links does not depend on entries that are not symbolic links
before or after a change. -/
theorem follow_congr (loc : Path → Loc) (dir dir' : Loc → Option Node)
    (h : ∀ l q, dir l = some (.symlink q) ∨ dir' l = some (.symlink q) → dir' l = dir l)
    (n : Nat) : ∀ l, follow loc dir' n l = follow loc dir n l := by
  induction n with
  | zero => intro l; rfl
  | succ n ih =>
    intro l
    unfold follow
    cases hd : dir l with
    | none =>
      cases hd' : dir' l with
      | none => rfl
      | some node' =>
        cases node' with
        | file i => rfl
        | symlink q =>
          have := h l q (Or.inr hd')
          rw [hd, hd'] at this
          cases this
    | some node =>
      cases node with
      | file i =>
        cases hd' : dir' l with
        | none => rfl
        | some node' =>
          cases node' with
          | file j => rfl
          | symlink q =>
            have := h l q (Or.inr hd')
            rw [hd, hd'] at this
            cases this
      | symlink q =>
        have := h l q (Or.inl hd)
        rw [this, hd]
        exact ih _

/-- Changing an entry that is not a symbolic link into one that is not a
symbolic link changes no lookup. -/
theorem follow_setEntry (loc : Path → Loc) (dir : Loc → Option Node) (l0 : Loc)
    (node : Option Node) (h0 : ∀ q, dir l0 ≠ some (.symlink q))
    (h1 : ∀ q, node ≠ some (.symlink q)) (n : Nat) (l : Loc) :
    follow loc (fun k => if k = l0 then node else dir k) n l = follow loc dir n l := by
  apply follow_congr
  intro k q hk
  by_cases hkl : k = l0
  · subst hkl
    rcases hk with hk | hk
    · exact absurd hk (h0 q)
    · simp only [if_true] at hk
      exact absurd hk (h1 q)
  · simp [hkl]

theorem inoAt_lt (w : World) (p : Path) (i : Ino) (h : inoAt w p = some i) : i < w.next := by
  unfold inoAt at h
  cases hr : resolve w p with
  | none => simp [hr] at h
  | some l =>
    cases hd : w.dir l with
    | none => simp [hr, hd] at h
    | some node =>
      cases node with
      | symlink q => simp [hr, hd] at h
      | file j =>
        simp only [hr, hd] at h
        by_cases hj : j < w.next
        · simp only [hj, if_true, Option.some.injEq] at h
          rw [← h]; exact hj
        · simp [hj] at h

/-- A path whose entry links to an existing file leads to that file. -/
theorem inoAt_of_entry (w : World) (p : Path) (i : Ino)
    (h : w.dir (w.loc p) = some (.file i)) (hi : i < w.next) : inoAt w p = some i := by
  simp [inoAt, resolve, follow, h, hi]

/-- A path whose entry is empty leads to no file. -/
theorem inoAt_of_empty (w : World) (p : Path) (h : w.dir (w.loc p) = none) :
    inoAt w p = none := by
  simp [inoAt, resolve, follow, h]

theorem keeps_follow (loc : Path → Loc) (dir dir' : Loc → Option Node)
    (hdir : ∀ l, (dir l).isSome → dir' l = dir l) (n : Nat) :
    ∀ l l', follow loc dir n l = some l' → (dir l').isSome →
      follow loc dir' n l = some l' := by
  induction n with
  | zero => intro l l' h; simp [follow] at h
  | succ n ih =>
    intro l l' h hs
    unfold follow at h ⊢
    cases hd : dir l with
    | none =>
      simp only [hd] at h
      cases h
      rw [hd] at hs
      simp at hs
    | some node =>
      have hd' : dir' l = some node := by rw [hdir l (by simp [hd]), hd]
      cases node with
      | file i =>
        simp only [hd] at h
        simp only [hd']
        exact h
      | symlink q =>
        simp only [hd] at h
        simp only [hd']
        exact ih _ _ h hs

/-- A path that leads to a file leads to the same file, unchanged, in a world
that keeps what was there. -/
theorem keeps_fileAt (w w' : World) (hk : Keeps w w') (p : Path)
    (h : (fileAt w p).isSome) : fileAt w' p = fileAt w p := by
  obtain ⟨hloc, hlim, hdir, hnext, hfiles⟩ := hk
  unfold fileAt inoAt resolve at h ⊢
  cases hr : follow w.loc w.dir (w.symlinkLimit + 1) (w.loc p) with
  | none => simp [hr] at h
  | some l =>
    cases hd : w.dir l with
    | none => simp [hr, hd] at h
    | some node =>
      cases node with
      | symlink q => simp [hr, hd] at h
      | file i =>
        by_cases hi : i < w.next
        · have hr' : follow w'.loc w'.dir (w'.symlinkLimit + 1) (w'.loc p) = some l := by
            rw [hloc, hlim]
            exact keeps_follow w.loc w.dir w'.dir hdir _ _ _ hr (by simp [hd])
          have hd' : w'.dir l = some (.file i) := by rw [hdir l (by simp [hd]), hd]
          have hi' : i < w'.next := Nat.lt_of_lt_of_le hi hnext
          simp [hr, hd, hi, hr', hd', hi', hfiles i hi]
        · simp [hr, hd, hi] at h

theorem fetchLatestInfo_world (env : Env) (url : String) (w : World) :
    (fetchLatestInfo env url w).1 = w.emit (.httpGet url) := by
  unfold fetchLatestInfo
  cases env.manifestGet url with
  | err => rfl
  | resp st body =>
    by_cases hs : st = 200
    · simp only [hs]
      cases env.jsonDecode body <;> rfl
    · simp [hs]

/-- What `downloadFile` does to the world: one GET, no removal, no process;
it keeps what was there; and the name it returns was free and now links to a
new file that holds the whole body. -/
theorem downloadFile_spec (env : Env) (url : String) (w : World) :
    ∃ rest, (downloadFile env url w).1.trace = w.trace ++ Event.httpGet url :: rest ∧
      gets rest = [] ∧ removes rest = [] ∧
      (downloadFile env url w).1.procs = w.procs ∧
      Keeps w (downloadFile env url w).1 ∧
      (∀ tmp, (downloadFile env url w).2 = .ok tmp →
        w.dir (w.loc tmp) = none ∧
        ∃ st body e, env.binaryGet url = .resp st body ∧
          (downloadFile env url w).1.dir (w.loc tmp) = some (.file w.next) ∧
          (downloadFile env url w).1.next = w.next + 1 ∧
          (downloadFile env url w).1.files w.next = ⟨body, e⟩) := by
  unfold downloadFile osCreateTemp ioCopy fChmod Keeps
  cases env.binaryGet url with
  | err => simp [World.emit, gets, removes]
  | resp st body =>
    cases env.tempName with
    | none => simp [World.emit, gets, removes]
    | some t =>
      cases ht : w.dir (w.loc t) with
      | some f => simp [World.emit, gets, removes, ht]
      | none =>
        have hne : ∀ l, (w.dir l).isSome = true → ¬ l = w.loc t := by
          intro l hl hlt
          rw [hlt, ht] at hl
          simp at hl
        have hlt : ∀ i, i < w.next → ¬ i = w.next := fun i hi => Nat.ne_of_lt hi
        cases env.copyFault <;> cases env.chmodFault <;>
          simp +contextual [World.emit, World.setEntry, World.setFile, World.alloc, ht, gets,
            removes, hne, hlt]

theorem fetchLatestInfo_eq (env : Env) (url : String) (w : World)
    (r : Except OsError LatestInfo) (h : (fetchLatestInfo env url w).2 = r) :
    fetchLatestInfo env url w = (w.emit (.httpGet url), r) := by
  rw [← h, ← fetchLatestInfo_world]

theorem check_fetch_error (env : Env) (latestURL : String) (w : World) (e : OsError)
    (hf : (fetchLatestInfo env latestURL w).2 = .error e) :
    checkAndPerformUpdate env latestURL w =
      ((w.emit (.httpGet latestURL)).emit (.log "Failed to fetch latest info: %v"),
        .returned) := by
  unfold checkAndPerformUpdate
  rw [fetchLatestInfo_eq env latestURL w _ hf]

theorem check_same_version (env : Env) (latestURL : String) (w : World) (info : LatestInfo)
    (hf : (fetchLatestInfo env latestURL w).2 = .ok info)
    (hv : info.Version = CurrentVersion) :
    checkAndPerformUpdate env latestURL w =
      ((w.emit (.httpGet latestURL)).emit (.log "Already at the latest version."),
        .returned) := by
  unfold checkAndPerformUpdate
  rw [fetchLatestInfo_eq env latestURL w _ hf]
  simp [hv]

theorem check_download_error (env : Env) (latestURL : String) (w w2 : World)
    (info : LatestInfo) (e : OsError)
    (hf : (fetchLatestInfo env latestURL w).2 = .ok info)
    (hv : info.Version ≠ CurrentVersion)
    (hd : downloadFile env (selectURL env.goos info) (beforeDownload w latestURL) =
        (w2, .error e)) :
    checkAndPerformUpdate env latestURL w =
      (w2.emit (.log "Error downloading file: %v"), .returned) := by
  unfold checkAndPerformUpdate
  simp only [beforeDownload] at hd
  rw [fetchLatestInfo_eq env latestURL w _ hf]
  simp [hv, hd]

/-- The part of `checkAndPerformUpdate` that follows a download which returned
the name `tmp`, leaving the world `w2`. -/
theorem check_after_download (env : Env) (latestURL : String) (w w2 : World)
    (info : LatestInfo) (tmp : Path)
    (hf : (fetchLatestInfo env latestURL w).2 = .ok info)
    (hv : info.Version ≠ CurrentVersion)
    (hd : downloadFile env (selectURL env.goos info) (beforeDownload w latestURL) =
        (w2, .ok tmp)) :
    ∃ rest, (checkAndPerformUpdate env latestURL w).1.trace = w2.trace ++ rest ∧
      gets rest = [] ∧
      (checkAndPerformUpdate env latestURL w).1.loc = w2.loc ∧
      (checkAndPerformUpdate env latestURL w).1.symlinkLimit = w2.symlinkLimit ∧
      (checkAndPerformUpdate env latestURL w).1.files = w2.files ∧
      (checkAndPerformUpdate env latestURL w).1.next = w2.next ∧
      (∀ l, l ≠ w2.loc tmp → (checkAndPerformUpdate env latestURL w).1.dir l = w2.dir l) ∧
      ((env.executable = none ∨ env.startFault = true) →
        (checkAndPerformUpdate env latestURL w).2 = .returned ∧
        removes rest = [tmp] ∧
        (checkAndPerformUpdate env latestURL w).1.procs = w2.procs ∧
        (env.removeTmpFault = false →
          (checkAndPerformUpdate env latestURL w).1.dir (w2.loc tmp) = none)) ∧
      (∀ self, env.executable = some self → env.startFault = false →
        (checkAndPerformUpdate env latestURL w).2 = .exited 0 ∧
        removes rest = [] ∧
        (checkAndPerformUpdate env latestURL w).1.dir = w2.dir ∧
        (checkAndPerformUpdate env latestURL w).1.procs =
          w2.procs ++ [[self, "-update-install", tmp, self]]) := by
  unfold checkAndPerformUpdate
  simp only [beforeDownload] at hd
  rw [fetchLatestInfo_eq env latestURL w _ hf]
  simp only [hv, if_false, hd]
  unfold osExecutable cmdStart osRemove
  cases env.executable <;> cases env.startFault <;> cases env.removeTmpFault <;>
    cases hp : w2.dir (w2.loc tmp) <;>
    simp +contextual [World.emit, World.setEntry, hp, gets, removes]

theorem fetchLatestInfo_ok (env : Env) (url : String) (w : World) (info : LatestInfo)
    (h : (fetchLatestInfo env url w).2 = .ok info) :
    ∃ body, env.manifestGet url = .resp 200 body ∧ env.jsonDecode body = some info := by
  unfold fetchLatestInfo at h
  cases hm : env.manifestGet url with
  | err => simp [hm] at h
  | resp st body =>
    by_cases hs : st = 200
    · subst hs
      cases hj : env.jsonDecode body with
      | none => simp [hm, hj] at h
      | some i =>
        simp [hm, hj] at h
        exact ⟨body, rfl, by rw [hj, h]⟩
    · simp [hm, hs] at h

/-- Whether `downloadFile` fails depends on the names and entries only, not on
the trace. -/
theorem downloadFile_failed_congr (env : Env) (url : String) (w1 w2 : World)
    (hloc : w1.loc = w2.loc) (h : w1.dir = w2.dir) :
    failed (downloadFile env url w1).2 = failed (downloadFile env url w2).2 := by
  unfold downloadFile osCreateTemp ioCopy fChmod
  cases env.binaryGet url with
  | err => rfl
  | resp st body =>
    cases env.tempName with
    | none => rfl
    | some t =>
      cases ht : w2.dir (w2.loc t) with
      | some f => simp [World.emit, h, hloc, ht, failed]
      | none =>
        cases env.copyFault <;> cases env.chmodFault <;>
          simp [World.emit, World.setEntry, World.setFile, World.alloc, h, hloc, ht, failed]

/-! ## The version check -/

/-- C1: when the manifest was fetched and its version string is not literally
"1.0.0" (an older one such as "0.9.0" included), the run issues exactly two
GETs, the manifest and then the download, and the download URL is
`url_windows` on "windows", `url_darwin` on "darwin" and `url_linux` on any
other platform. -/
theorem checkAndPerformUpdate_downloads_platform_url (env : Env) (latestURL : String)
    (w : World) (info : LatestInfo)
    (hf : (fetchLatestInfo env latestURL w).2 = .ok info)
    (hv : info.Version ≠ "1.0.0") :
    (env.goos = "windows" →
      gets (newEvents w (checkAndPerformUpdate env latestURL w).1) =
        [latestURL, info.URLWindows]) ∧
    (env.goos = "darwin" →
      gets (newEvents w (checkAndPerformUpdate env latestURL w).1) =
        [latestURL, info.URLDarwin]) ∧
    (env.goos ≠ "windows" → env.goos ≠ "darwin" →
      gets (newEvents w (checkAndPerformUpdate env latestURL w).1) =
        [latestURL, info.URLLinux]) := by
  have hv2 : info.Version ≠ CurrentVersion := hv
  have key : gets (newEvents w (checkAndPerformUpdate env latestURL w).1) =
      [latestURL, selectURL env.goos info] := by
    obtain ⟨rest, ht, hg, -⟩ := downloadFile_spec env (selectURL env.goos info)
      (beforeDownload w latestURL)
    rcases hd : downloadFile env (selectURL env.goos info)
      (beforeDownload w latestURL) with ⟨w2, r2⟩
    rw [hd] at ht
    cases r2 with
    | error e =>
      rw [check_download_error env latestURL w w2 info e hf hv2 hd]
      apply congrArg gets (newEvents_eq w _ (Event.httpGet latestURL ::
        Event.log "A newer version (%s) is available! Current is %s" ::
        Event.httpGet (selectURL env.goos info) ::
        (rest ++ [Event.log "Error downloading file: %v"])) _) |>.trans
      · simp [gets, gets_append, hg]
      · simp only [World.emit] at ht ⊢
        simp [ht]
    | ok tmp =>
      obtain ⟨rest2, ht2, hg2, -⟩ := check_after_download env latestURL w w2 info tmp hf hv2 hd
      apply congrArg gets (newEvents_eq w _ (Event.httpGet latestURL ::
        Event.log "A newer version (%s) is available! Current is %s" ::
        Event.httpGet (selectURL env.goos info) ::
        (rest ++ rest2)) _) |>.trans
      · simp [gets, gets_append, hg, hg2]
      · simp only [World.emit] at ht
        simp [ht2, ht]
  refine ⟨fun h => ?_, fun h => ?_, fun h1 h2 => ?_⟩
  · rw [key]; simp [selectURL, h]
  · rw [key]; simp [selectURL, h]
  · rw [key]; simp [selectURL, h1, h2]

/-- Witness for C1: a Linux machine offered the older version "0.9.0" fetches
the manifest and then `url_linux`. -/
theorem checkAndPerformUpdate_downloads_platform_url_witness :
    gets (newEvents appWorld
      (checkAndPerformUpdate olderEnv "http://h/latest.json" appWorld).1) =
      ["http://h/latest.json", "http://h/bin"] :=
  (checkAndPerformUpdate_downloads_platform_url olderEnv "http://h/latest.json" appWorld
    ⟨"0.9.0", "http://h/win", "http://h/mac", "http://h/bin"⟩ rfl (by decide)).2.2
    (by decide) (by decide)

/-- C2: when the manifest was fetched and its version is "1.0.0", the run
returns to its caller after the one GET of the manifest: no download, no
name, entry or file created or changed, no process started. -/
theorem checkAndPerformUpdate_up_to_date (env : Env) (latestURL : String)
    (w : World) (info : LatestInfo)
    (hf : (fetchLatestInfo env latestURL w).2 = .ok info)
    (hv : info.Version = "1.0.0") :
    (checkAndPerformUpdate env latestURL w).2 = .returned ∧
    newEvents w (checkAndPerformUpdate env latestURL w).1 =
      [.httpGet latestURL, .log "Already at the latest version."] ∧
    gets (newEvents w (checkAndPerformUpdate env latestURL w).1) = [latestURL] ∧
    ((checkAndPerformUpdate env latestURL w).1.loc = w.loc ∧
      (checkAndPerformUpdate env latestURL w).1.symlinkLimit = w.symlinkLimit ∧
      (checkAndPerformUpdate env latestURL w).1.dir = w.dir ∧
      (checkAndPerformUpdate env latestURL w).1.files = w.files ∧
      (checkAndPerformUpdate env latestURL w).1.next = w.next) ∧
    (checkAndPerformUpdate env latestURL w).1.procs = w.procs := by
  have hv2 : info.Version = CurrentVersion := hv
  have hn : newEvents w (checkAndPerformUpdate env latestURL w).1 =
      [.httpGet latestURL, .log "Already at the latest version."] := by
    rw [check_same_version env latestURL w info hf hv2]
    exact newEvents_eq w _ _ (by simp [World.emit])
  refine ⟨?_, hn, ?_, ?_, ?_⟩
  · rw [check_same_version env latestURL w info hf hv2]
  · rw [hn]; rfl
  · rw [check_same_version env latestURL w info hf hv2]; exact ⟨rfl, rfl, rfl, rfl, rfl⟩
  · rw [check_same_version env latestURL w info hf hv2]; rfl

/-- Witness for C2: the server offers "1.0.0". -/
theorem checkAndPerformUpdate_up_to_date_witness :
    (checkAndPerformUpdate sameEnv "http://h/latest.json" appWorld).2 = .returned ∧
    newEvents appWorld (checkAndPerformUpdate sameEnv "http://h/latest.json" appWorld).1 =
      [.httpGet "http://h/latest.json", .log "Already at the latest version."] ∧
    gets (newEvents appWorld
      (checkAndPerformUpdate sameEnv "http://h/latest.json" appWorld).1) =
      ["http://h/latest.json"] ∧
    ((checkAndPerformUpdate sameEnv "http://h/latest.json" appWorld).1.loc = appWorld.loc ∧
      (checkAndPerformUpdate sameEnv "http://h/latest.json" appWorld).1.symlinkLimit =
        appWorld.symlinkLimit ∧
      (checkAndPerformUpdate sameEnv "http://h/latest.json" appWorld).1.dir = appWorld.dir ∧
      (checkAndPerformUpdate sameEnv "http://h/latest.json" appWorld).1.files =
        appWorld.files ∧
      (checkAndPerformUpdate sameEnv "http://h/latest.json" appWorld).1.next =
        appWorld.next) ∧
    (checkAndPerformUpdate sameEnv "http://h/latest.json" appWorld).1.procs = appWorld.procs :=
  checkAndPerformUpdate_up_to_date sameEnv "http://h/latest.json" appWorld
    ⟨"1.0.0", "http://h/win", "http://h/mac", "http://h/bin"⟩ rfl rfl

/-- C8, the run that breaks the claim: the temporary file is created, the copy
of the body fails after two bytes, `checkAndPerformUpdate` returns and starts no
installer, and the file with the two bytes is still there under its name:
`os.Remove` was never called. -/
theorem checkAndPerformUpdate_leaves_partial_download :
    (downloadFile brokenCopyEnv "http://h/bin" appWorld).2 = .error .other ∧
    (checkAndPerformUpdate brokenCopyEnv "http://h/latest.json" appWorld).2 = .returned ∧
    (checkAndPerformUpdate brokenCopyEnv "http://h/latest.json" appWorld).1.procs = [] ∧
    removes (newEvents appWorld
      (checkAndPerformUpdate brokenCopyEnv "http://h/latest.json" appWorld).1) = [] ∧
    fileAt (checkAndPerformUpdate brokenCopyEnv "http://h/latest.json" appWorld).1
      "/tmp/myapp-update-1" = some ⟨[7, 8], false⟩ := by
  refine ⟨rfl, ?_, ?_, ?_, ?_⟩ <;> decide

/-- C9: on every soft failure (the manifest GET fails, answers with a status
other than 200, or has a body that does not decode; the download of the binary
returns an error; `os.Executable` fails; the installer cannot be started)
`checkAndPerformUpdate` returns to its caller, no process has been started, and
every file that could be read before, under whatever path, the running
executable among them, is unchanged. -/
theorem checkAndPerformUpdate_soft_failure (env : Env) (latestURL : String) (w : World)
    (h : env.manifestGet latestURL = .err ∨
      (∃ st body, env.manifestGet latestURL = .resp st body ∧ st ≠ 200) ∨
      (∃ st body, env.manifestGet latestURL = .resp st body ∧ env.jsonDecode body = none) ∨
      (∃ info, (fetchLatestInfo env latestURL w).2 = .ok info ∧
        failed (downloadFile env (selectURL env.goos info) w).2 = true) ∨
      env.executable = none ∨ env.startFault = true) :
    (checkAndPerformUpdate env latestURL w).2 = .returned ∧
    (checkAndPerformUpdate env latestURL w).1.procs = w.procs ∧
    ∀ p, (fileAt w p).isSome →
      fileAt (checkAndPerformUpdate env latestURL w).1 p = fileAt w p := by
  have hrefl : Keeps w w := ⟨rfl, rfl, fun _ _ => rfl, Nat.le_refl _, fun _ _ => rfl⟩
  cases hr : (fetchLatestInfo env latestURL w).2 with
  | error e =>
    rw [check_fetch_error env latestURL w e hr]
    exact ⟨rfl, rfl, fun p hp => keeps_fileAt w _ hrefl p hp⟩
  | ok info =>
    by_cases hv : info.Version = CurrentVersion
    · rw [check_same_version env latestURL w info hr hv]
      exact ⟨rfl, rfl, fun p hp => keeps_fileAt w _ hrefl p hp⟩
    · obtain ⟨rest, -, -, -, hprocs, hkeeps, htmp⟩ :=
        downloadFile_spec env (selectURL env.goos info) (beforeDownload w latestURL)
      have hcongr := downloadFile_failed_congr env (selectURL env.goos info)
        (beforeDownload w latestURL) w rfl rfl
      rcases hd : downloadFile env (selectURL env.goos info)
        (beforeDownload w latestURL) with ⟨w2, r2⟩
      rw [hd] at hprocs hkeeps htmp hcongr
      have hk2 : Keeps w w2 := hkeeps
      cases r2 with
      | error e =>
        rw [check_download_error env latestURL w w2 info e hr hv hd]
        exact ⟨rfl, hprocs, fun p hp => keeps_fileAt w _ hk2 p hp⟩
      | ok tmp =>
        obtain ⟨body, hm, hj⟩ := fetchLatestInfo_ok env latestURL w info hr
        have hsoft : env.executable = none ∨ env.startFault = true := by
          rcases h with h | ⟨st, b, h, hs⟩ | ⟨st, b, h, hb⟩ | ⟨i, hi, hfail⟩ | h | h
          · rw [hm] at h; cases h
          · rw [hm] at h; cases h; exact absurd rfl hs
          · rw [hm] at h; cases h; rw [hj] at hb; cases hb
          · rw [hr] at hi; cases hi
            rw [← hcongr] at hfail
            simp [failed] at hfail
          · exact Or.inl h
          · exact Or.inr h
        obtain ⟨rest2, -, -, hloc, hlim, hfiles, hnext, hframe, hret, -⟩ :=
          check_after_download env latestURL w w2 info tmp hr hv hd
        obtain ⟨hout, -, hp, -⟩ := hret hsoft
        obtain ⟨k1, k2, k3, k4, k5⟩ := hk2
        have hnone : w.dir (w.loc tmp) = none := (htmp tmp rfl).1
        have hk : Keeps w (checkAndPerformUpdate env latestURL w).1 := by
          refine ⟨hloc.trans k1, hlim.trans k2, fun l hl => ?_, ?_, fun i hi => ?_⟩
          · have hne : l ≠ w2.loc tmp := by
              intro hlt
              rw [hlt, k1, hnone] at hl
              simp at hl
            rw [hframe l hne]
            exact k3 l hl
          · rw [hnext]; exact k4
          · rw [hfiles]; exact k5 i hi
        exact ⟨hout, hp.trans hprocs, fun p hp => keeps_fileAt w _ hk p hp⟩

/-- Witness for C9: the installer cannot be started; the run returns, no
process runs and `/opt/app` is what it was. -/
theorem checkAndPerformUpdate_soft_failure_witness :
    (checkAndPerformUpdate noStartEnv "http://h/latest.json" appWorld).2 = .returned ∧
    (checkAndPerformUpdate noStartEnv "http://h/latest.json" appWorld).1.procs = [] ∧
    fileAt (checkAndPerformUpdate noStartEnv "http://h/latest.json" appWorld).1 "/opt/app" =
      some ⟨[1, 2, 3], true⟩ :=
  have h := checkAndPerformUpdate_soft_failure noStartEnv "http://h/latest.json" appWorld
    (Or.inr (Or.inr (Or.inr (Or.inr (Or.inr rfl)))))
  ⟨h.1, h.2.1, h.2.2 "/opt/app" (by decide)⟩

/-- C10: the deferred `os.Remove` of the staging file runs exactly when
`checkAndPerformUpdate` returns after a successful download, that is when
`os.Executable` fails or the installer cannot be started.  When the installer
was started the process ends with `os.Exit(0)` and the removal does not run: the
staging file is on disk with the bytes of the response body, and the installer
was started as `selfPath -update-install stagingPath selfPath`. -/
theorem checkAndPerformUpdate_deferred_removal (env : Env) (latestURL : String) (w : World) :
    (stagedFile env latestURL w = none →
      removes (newEvents w (checkAndPerformUpdate env latestURL w).1) = []) ∧
    (∀ tmp, stagedFile env latestURL w = some tmp →
      ((checkAndPerformUpdate env latestURL w).2 = .returned ↔
        (env.executable = none ∨ env.startFault = true)) ∧
      ((checkAndPerformUpdate env latestURL w).2 = .returned →
        removes (newEvents w (checkAndPerformUpdate env latestURL w).1) = [tmp] ∧
        (env.removeTmpFault = false →
          entryAt (checkAndPerformUpdate env latestURL w).1 tmp = none)) ∧
      (∀ self, env.executable = some self → env.startFault = false →
        (checkAndPerformUpdate env latestURL w).2 = .exited 0 ∧
        removes (newEvents w (checkAndPerformUpdate env latestURL w).1) = [] ∧
        (∃ info st body, (fetchLatestInfo env latestURL w).2 = .ok info ∧
          env.binaryGet (selectURL env.goos info) = .resp st body ∧
          bytesAt (checkAndPerformUpdate env latestURL w).1 tmp = some body) ∧
        (checkAndPerformUpdate env latestURL w).1.procs =
          w.procs ++ [[self, "-update-install", tmp, self]])) := by
  unfold stagedFile
  cases hr : (fetchLatestInfo env latestURL w).2 with
  | error e =>
    rw [fetchLatestInfo_eq env latestURL w _ hr, check_fetch_error env latestURL w e hr]
    refine ⟨fun _ => ?_, fun tmp h => by simp at h⟩
    rw [newEvents_eq w _ [.httpGet latestURL, .log "Failed to fetch latest info: %v"]
      (by simp [World.emit])]
    rfl
  | ok info =>
    rw [fetchLatestInfo_eq env latestURL w _ hr]
    by_cases hv : info.Version = CurrentVersion
    · rw [check_same_version env latestURL w info hr hv]
      refine ⟨fun _ => ?_, fun tmp h => by simp [hv] at h⟩
      rw [newEvents_eq w _ [.httpGet latestURL, .log "Already at the latest version."]
        (by simp [World.emit])]
      rfl
    · obtain ⟨rest, ht, -, hrm, hprocs, hkeeps, htmp⟩ :=
        downloadFile_spec env (selectURL env.goos info) (beforeDownload w latestURL)
      rcases hd : downloadFile env (selectURL env.goos info)
        (beforeDownload w latestURL) with ⟨w2, r2⟩
      rw [hd] at ht hprocs htmp hkeeps
      simp only [World.emit, List.append_assoc, List.singleton_append] at ht
      simp only [hv, if_false, hd]
      cases r2 with
      | error e =>
        rw [check_download_error env latestURL w w2 info e hr hv hd]
        refine ⟨fun _ => ?_, fun tmp h => by simp at h⟩
        rw [newEvents_eq w _ (Event.httpGet latestURL ::
          Event.log "A newer version (%s) is available! Current is %s" ::
          Event.httpGet (selectURL env.goos info) ::
          (rest ++ [Event.log "Error downloading file: %v"])) (by simp [World.emit, ht])]
        simp [removes, removes_append, hrm]
      | ok t =>
        obtain ⟨rest2, ht2, -, hloc, hlim, hfiles, hnext, -, hret, hexit⟩ :=
          check_after_download env latestURL w w2 info t hr hv hd
        have hk2 : Keeps w w2 := hkeeps
        have hnew : newEvents w (checkAndPerformUpdate env latestURL w).1 =
            Event.httpGet latestURL ::
            Event.log "A newer version (%s) is available! Current is %s" ::
              Event.httpGet (selectURL env.goos info) :: (rest ++ rest2) :=
          newEvents_eq w _ _ (by simp [ht2, ht])
        have hrem : removes (newEvents w (checkAndPerformUpdate env latestURL w).1) =
            removes rest2 := by
          rw [hnew]
          simp [removes, removes_append, hrm]
        refine ⟨fun h => by simp at h, fun tmp h => ?_⟩
        simp only [Option.some.injEq] at h
        subst h
        have hsoft_of : (checkAndPerformUpdate env latestURL w).2 = .returned →
            env.executable = none ∨ env.startFault = true := by
          intro hout
          cases he : env.executable with
          | none => exact Or.inl rfl
          | some self =>
            cases hst : env.startFault with
            | true => exact Or.inr rfl
            | false =>
              rw [(hexit self he hst).1] at hout
              cases hout
        refine ⟨⟨hsoft_of, fun hsoft => (hret hsoft).1⟩, fun hout => ?_,
          fun self hs hst => ?_⟩
        · obtain ⟨-, h1, -, h2⟩ := hret (hsoft_of hout)
          refine ⟨hrem.trans h1, fun hf => ?_⟩
          have := h2 hf
          simp only [entryAt, hloc]
          exact this
        · obtain ⟨h1, h2, h3, h4⟩ := hexit self hs hst
          obtain ⟨-, st, body, e, hb, hentry, hnx, hfile⟩ := htmp t rfl
          refine ⟨h1, hrem.trans h2, ⟨info, st, body, rfl, hb, ?_⟩, ?_⟩
          · have hloc2 : w2.loc = w.loc := hk2.1
            have hentry2 : (checkAndPerformUpdate env latestURL w).1.dir
                ((checkAndPerformUpdate env latestURL w).1.loc t) = some (.file w.next) := by
              rw [h3, hloc, hloc2]
              exact hentry
            have hlt : w.next < (checkAndPerformUpdate env latestURL w).1.next := by
              rw [hnext]
              have hnx2 : w2.next = w.next + 1 := hnx
              rw [hnx2]
              exact Nat.lt_succ_self _
            simp only [bytesAt, fileAt, inoAt_of_entry _ t w.next hentry2 hlt, Option.map_some',
              hfiles]
            have hfile2 : w2.files w.next = ⟨body, e⟩ := hfile
            rw [hfile2]
          · have hprocs2 : w2.procs = w.procs := hprocs
            rw [h4, hprocs2]

/-- Witness for C10: nothing fails; the process ends with status 0, no removal
was called, the staging file holds the four bytes of the body and the installer
got the staging path and `/opt/app`. -/
theorem checkAndPerformUpdate_deferred_removal_witness :
    (checkAndPerformUpdate okEnv "http://h/latest.json" appWorld).2 = .exited 0 ∧
    removes (newEvents appWorld
      (checkAndPerformUpdate okEnv "http://h/latest.json" appWorld).1) = [] ∧
    bytesAt (checkAndPerformUpdate okEnv "http://h/latest.json" appWorld).1
      "/tmp/myapp-update-1" = some [7, 8, 9, 10] ∧
    (checkAndPerformUpdate okEnv "http://h/latest.json" appWorld).1.procs =
      [["/opt/app", "-update-install", "/tmp/myapp-update-1", "/opt/app"]] :=
  have h := ((checkAndPerformUpdate_deferred_removal okEnv "http://h/latest.json"
    appWorld).2 "/tmp/myapp-update-1" (by decide)).2.2 "/opt/app" rfl rfl
  ⟨h.1, h.2.1, by decide, h.2.2.2⟩

/-! ## The installer -/

theorem inoAt_congr (w w' : World) (hloc : w'.loc = w.loc)
    (hlim : w'.symlinkLimit = w.symlinkLimit) (hdir : w'.dir = w.dir)
    (hnext : w'.next = w.next) (p : Path) : inoAt w' p = inoAt w p := by
  simp only [inoAt, resolve, hloc, hlim, hdir, hnext]

/-- Removing the entry of a file leaves every path that leads to another file
leading there. -/
theorem inoAt_remove (w : World) (p : Path) (l0 : Loc) (i j : Ino)
    (h0 : w.dir l0 = some (.file i)) (hj : inoAt w p = some j) (hne : j ≠ i) :
    inoAt (w.setEntry l0 none) p = some j := by
  unfold inoAt resolve at hj ⊢
  have hf : follow w.loc (fun k => if k = l0 then none else w.dir k) (w.symlinkLimit + 1)
      (w.loc p) = follow w.loc w.dir (w.symlinkLimit + 1) (w.loc p) :=
    follow_setEntry w.loc w.dir l0 none (by simp [h0]) (by simp) _ _
  simp only [World.setEntry, hf]
  cases hr : follow w.loc w.dir (w.symlinkLimit + 1) (w.loc p) with
  | none => simp [hr] at hj
  | some l =>
    simp only [hr] at hj ⊢
    have hl : l ≠ l0 := by
      intro hl
      rw [hl, h0] at hj
      by_cases hi : i < w.next
      · simp [hi] at hj
        exact hne hj.symm
      · simp [hi] at hj
    simp only [hl, if_false]
    exact hj

/-- What `os.Remove(targetPath)` and its error handling do: nothing but the
removal of the one entry, and only when the call is not refused. -/
theorem removeOld_spec (env : Env) (w : World) (target : Path) :
    (removeOld env w target).loc = w.loc ∧
    (removeOld env w target).symlinkLimit = w.symlinkLimit ∧
    (removeOld env w target).files = w.files ∧
    (removeOld env w target).next = w.next ∧
    (removeOld env w target).procs = w.procs ∧
    ((removeOld env w target).dir = w.dir ∨
      (env.removeTargetFault = false ∧
        (removeOld env w target).dir = fun k => if k = w.loc target then none else w.dir k)) := by
  unfold removeOld osRemove
  cases env.removeTargetFault <;> cases hT : w.dir (w.loc target) <;>
    simp [World.emit, World.setEntry, hT]

/-- The fallback copy changes no name and no entry that is there, and starts
no process. -/
theorem copyFileContents_frame (env : Env) (w : World) (src dst : Path) :
    (copyFileContents env w src dst).1.loc = w.loc ∧
    (copyFileContents env w src dst).1.symlinkLimit = w.symlinkLimit ∧
    (copyFileContents env w src dst).1.procs = w.procs ∧
    ∀ l, (w.dir l).isSome → (copyFileContents env w src dst).1.dir l = w.dir l := by
  unfold copyFileContents osOpen osCreate ioCopy
  have he1 : ∀ e, inoAt (w.emit e) src = inoAt w src := fun _ => rfl
  have he2 : ∀ e e', resolve ((w.emit e).emit e') dst = resolve w dst := fun _ _ => rfl
  cases env.openFault
  · simp only [Bool.false_eq_true, if_false, he1]
    cases inoAt w src with
    | none => simp [World.emit]
    | some i =>
      cases env.createFault
      · simp only [Bool.false_eq_true, if_false, he2]
        cases hr : resolve w dst with
        | none => simp [World.emit]
        | some l =>
          cases hd : w.dir l with
          | none =>
            have hne : ∀ k, (w.dir k).isSome = true → ¬ k = l := by
              intro k hk hkl
              rw [hkl, hd] at hk
              simp at hk
            cases env.copyFault <;>
              simp +contextual [World.emit, World.setEntry, World.setFile, World.alloc, hd, hne]
          | some node =>
            cases node with
            | symlink q => simp [World.emit, hd]
            | file j =>
              by_cases hj : j < w.next <;> cases env.copyFault <;>
                simp [World.emit, World.setFile, hd, hj]
      · simp [World.emit]
  · simp [World.emit]

/-- A fallback copy that succeeds, from a path that leads to the file `i` to a
path that does not: the destination leads to a file other than `i` that holds
the bytes of `i`, and `i` is unchanged. -/
theorem copyFileContents_ok (env : Env) (w : World) (src dst : Path) (i : Ino)
    (hsrc : inoAt w src = some i) (hdst : inoAt w dst ≠ some i)
    (hok : failed (copyFileContents env w src dst).2 = false) :
    ∃ j, inoAt (copyFileContents env w src dst).1 dst = some j ∧ j ≠ i ∧
      ((copyFileContents env w src dst).1.files j).bytes = (w.files i).bytes := by
  have hi : i < w.next := inoAt_lt w src i hsrc
  revert hok
  unfold copyFileContents osOpen osCreate ioCopy readAll
  have he1 : ∀ e, inoAt (w.emit e) src = inoAt w src := fun _ => rfl
  have he2 : ∀ e e', resolve ((w.emit e).emit e') dst = resolve w dst := fun _ _ => rfl
  cases env.openFault
  · simp only [Bool.false_eq_true, if_false, he1, hsrc]
    cases env.createFault
    · simp only [Bool.false_eq_true, if_false, he2]
      cases hr : resolve w dst with
      | none => simp [failed]
      | some l =>
        have hnosym := follow_not_symlink w.loc w.dir _ _ _ hr
        simp only [World.emit]
        cases hd : w.dir l with
        | none =>
          cases hc : env.copyFault with
          | some n => simp [failed]
          | none =>
            intro _
            refine ⟨w.next, ?_, Nat.ne_of_gt hi, ?_⟩
            · have hf : follow w.loc (fun k => if k = l then some (Node.file w.next) else w.dir k)
                  (w.symlinkLimit + 1) (w.loc dst) = some l := by
                rw [follow_setEntry w.loc w.dir l _ hnosym (by simp)]
                exact hr
              simp [inoAt, resolve, World.emit, World.setEntry, World.setFile, World.alloc, hf]
            · have hne : ¬ i = w.next := Nat.ne_of_lt hi
              simp [World.emit, World.setEntry, World.setFile, World.alloc, hne]
        | some node =>
          cases node with
          | symlink q => exact absurd hd (hnosym q)
          | file j =>
            by_cases hj : j < w.next
            · have hji : j ≠ i := by
                intro hji
                apply hdst
                simp [inoAt, hr, hd, hji, hi]
              cases hc : env.copyFault with
              | some n => simp [hj, failed]
              | none =>
                intro _
                refine ⟨j, ?_, hji, ?_⟩
                · have hr2 : follow w.loc w.dir (w.symlinkLimit + 1) (w.loc dst) = some l := hr
                  simp [inoAt, resolve, World.emit, World.setFile, hj, hr2, hd]
                · have hne : ¬ i = j := fun h => hji h.symm
                  simp [World.emit, World.setFile, hj, hne]
            · simp [hj, failed]
    · simp [failed]
  · simp [failed]

theorem copyFileContents_src_missing (env : Env) (w : World) (src dst : Path)
    (h : inoAt w src = none) : failed (copyFileContents env w src dst).2 = true := by
  unfold copyFileContents osOpen
  have he1 : ∀ e, inoAt (w.emit e) src = inoAt w src := fun _ => rfl
  cases env.openFault <;> simp [he1, h, failed]

theorem osRename_of_entry (fault : Bool) (w : World) (src dst : Path) (n : Node)
    (h : w.dir (w.loc src) = some n) :
    osRename fault w src dst =
      if sameFile w src dst = true then (w.emit (.rename src dst), .ok ())
      else if fault = true then (w.emit (.rename src dst), .error .other)
      else (((w.emit (.rename src dst)).setEntry (w.loc dst) (some n)).setEntry
        (w.loc src) none, .ok ()) := by
  have h1 : (w.emit (.rename src dst)).dir ((w.emit (.rename src dst)).loc src) = some n := h
  have h2 : sameFile (w.emit (.rename src dst)) src dst = sameFile w src dst := rfl
  have h3 : (w.emit (.rename src dst)).loc = w.loc := rfl
  have h4 : (w.emit (.rename src dst)).dir (w.loc src) = some n := h
  simp only [osRename, h2, h3, h4]

theorem osRename_of_missing (fault : Bool) (w : World) (src dst : Path)
    (h : w.dir (w.loc src) = none) :
    (osRename fault w src dst).1 = w.emit (.rename src dst) ∧
    failed (osRename fault w src dst).2 = true := by
  have h1 : (w.emit (.rename src dst)).dir ((w.emit (.rename src dst)).loc src) = none := h
  simp only [osRename, h1, failed, and_self]

/-- REPLACE, written with tests on the results of the two calls that can send
it to the next branch. -/
theorem replaceStep_eq (env : Env) (w : World) (tmp target : Path) :
    replaceStep env w tmp target =
      if failed (osRename env.renameFault (removeOld env w target) tmp target).2 = false then
        ((osRename env.renameFault (removeOld env w target) tmp target).1, true)
      else if failed (copyFileContents env
          ((osRename env.renameFault (removeOld env w target) tmp target).1.emit
            (.log "Rename failed, fallback to copy approach. Error: %v")) tmp target).2 = true
      then
        ((copyFileContents env
          ((osRename env.renameFault (removeOld env w target) tmp target).1.emit
            (.log "Rename failed, fallback to copy approach. Error: %v")) tmp target).1.emit
          (.log "Could not copy new file to target: %v"), false)
      else
        ((osRemove env.removeTmpFault (copyFileContents env
          ((osRename env.renameFault (removeOld env w target) tmp target).1.emit
            (.log "Rename failed, fallback to copy approach. Error: %v")) tmp target).1
          tmp).1, true) := by
  simp only [replaceStep]
  rcases osRename env.renameFault (removeOld env w target) tmp target with ⟨w1, r1⟩
  cases r1 with
  | ok u => simp [failed]
  | error e =>
    simp only [failed]
    rcases copyFileContents env
      (w1.emit (.log "Rename failed, fallback to copy approach. Error: %v")) tmp target
      with ⟨w2, r2⟩
    cases r2 <;> simp

/-- The steps after REPLACE change no name, entry or file contents; where
`os.Chmod` is called and succeeds, the file the target leads to is
executable. -/
theorem relaunch_spec (env : Env) (w : World) (target : Path) :
    (relaunch env w target).loc = w.loc ∧
    (relaunch env w target).symlinkLimit = w.symlinkLimit ∧
    (relaunch env w target).dir = w.dir ∧
    (relaunch env w target).next = w.next ∧
    (∀ k, ((relaunch env w target).files k).bytes = (w.files k).bytes) ∧
    (∀ j, inoAt w target = some j → env.goos ≠ "windows" → env.chmodFault = false →
      ((relaunch env w target).files j).exec = true) := by
  unfold relaunch osChmod cmdStart
  have he1 : ∀ e, inoAt (w.emit e) target = inoAt w target := fun _ => rfl
  simp only [he1]
  by_cases hg : env.goos = "windows" <;> cases hT : inoAt w target <;>
    cases env.chmodFault <;> cases env.startFault <;>
    simp +contextual [World.emit, World.setFile, hg]
  all_goals
    intro k
    split
    · next h => rw [h]
    · rfl

theorem doUpdateInstall_fatal (env : Env) (tmp target : Path) (rest : List String)
    (w w1 : World)
    (h : replaceStep env (afterSleep w) tmp target = (w1, false)) :
    doUpdateInstall env (tmp :: target :: rest) w = (w1, .exited 1) := by
  simp only [afterSleep] at h
  simp only [doUpdateInstall, h]

theorem doUpdateInstall_done (env : Env) (tmp target : Path) (rest : List String)
    (w w1 : World)
    (h : replaceStep env (afterSleep w) tmp target = (w1, true)) :
    doUpdateInstall env (tmp :: target :: rest) w =
      ((relaunch env w1 target).emit (.log "Update installed. Exiting updater."),
        .exited 0) := by
  simp only [afterSleep] at h
  simp only [doUpdateInstall, h]

theorem failed_ok_eq {α : Type} (a : α) : failed (Except.ok a : Except OsError α) = false :=
  rfl

theorem failed_error_eq {α : Type} (e : OsError) :
    failed (Except.error e : Except OsError α) = true :=
  rfl

theorem sameFile_entry (w : World) (src dst : Path) (i : Ino)
    (h : w.dir (w.loc src) = some (.file i)) (hs : sameFile w src dst = true) :
    w.dir (w.loc dst) = some (.file i) := by
  unfold sameFile at hs
  by_cases hl : w.loc src = w.loc dst
  · rw [← hl]; exact h
  · cases hd : w.dir (w.loc dst) with
    | none => simp [hl, h, hd] at hs
    | some node =>
      cases node with
      | symlink q => simp [hl, h, hd] at hs
      | file j =>
        simp [hl, h, hd] at hs
        rw [hs]

theorem sameFile_of_entries (w : World) (src dst : Path) (i : Ino)
    (h : w.dir (w.loc src) = some (.file i)) (hd : w.dir (w.loc dst) = some (.file i)) :
    sameFile w src dst = true := by
  simp [sameFile, h, hd]

/-- REPLACE with a regular file at the staging path and a target that is not
a symbolic link leading to that file: when it succeeds the target leads to a
file that holds the bytes of the staging file. -/
theorem replaceStep_bytes (env : Env) (w : World) (tmp target : Path) (i : Ino)
    (hs : w.dir (w.loc tmp) = some (.file i)) (hi : i < w.next)
    (hlink : ∀ q, w.dir (w.loc target) = some (.symlink q) → inoAt w target ≠ some i)
    (hok : (replaceStep env w tmp target).2 = true) :
    ∃ j, inoAt (replaceStep env w tmp target).1 target = some j ∧
      ((replaceStep env w tmp target).1.files j).bytes = (w.files i).bytes := by
  obtain ⟨hloc, hlim, hfiles, hnext, -, hdir⟩ := removeOld_spec env w target
  rw [replaceStep_eq] at hok ⊢
  generalize removeOld env w target = wA at hloc hlim hfiles hnext hdir hok ⊢
  have hiA : i < wA.next := by rw [hnext]; exact hi
  by_cases hmiss : wA.dir (wA.loc tmp) = none
  · obtain ⟨hw1, hf1⟩ := osRename_of_missing env.renameFault wA tmp target hmiss
    have hsrc : inoAt ((osRename env.renameFault wA tmp target).1.emit
        (.log "Rename failed, fallback to copy approach. Error: %v")) tmp = none := by
      rw [hw1]
      exact inoAt_of_empty _ tmp hmiss
    have hf2 := copyFileContents_src_missing env _ tmp target hsrc
    simp [hf1, hf2] at hok
  · have hsA : wA.dir (wA.loc tmp) = some (.file i) := by
      rcases hdir with h | ⟨-, h⟩
      · rw [h, hloc]; exact hs
      · rw [h, hloc] at hmiss ⊢
        by_cases hc : w.loc tmp = w.loc target
        · simp [hc] at hmiss
        · simp [hc, hs]
    rw [osRename_of_entry env.renameFault wA tmp target _ hsA] at hok ⊢
    by_cases hsame : sameFile wA tmp target = true
    · simp only [if_pos hsame, failed_ok_eq, if_true]
      refine ⟨i, inoAt_of_entry (wA.emit _) target i
        (sameFile_entry wA tmp target i hsA hsame) hiA, ?_⟩
      show (wA.files i).bytes = _
      rw [hfiles]
    · have hne : wA.loc tmp ≠ wA.loc target := by
        intro h
        apply hsame
        simp [sameFile, h]
      cases hrf : env.renameFault with
      | false =>
        simp only [if_neg hsame, Bool.false_eq_true, if_false, failed_ok_eq, if_true]
        refine ⟨i, ?_, ?_⟩
        · have hE : (((wA.emit (.rename tmp target)).setEntry (wA.loc target)
              (some (.file i))).setEntry (wA.loc tmp) none).dir
              ((((wA.emit (.rename tmp target)).setEntry (wA.loc target)
                (some (.file i))).setEntry (wA.loc tmp) none).loc target) = some (.file i) := by
            simp [World.emit, World.setEntry, hne.symm]
          exact inoAt_of_entry _ target i hE hiA
        · show (wA.files i).bytes = _
          rw [hfiles]
      | true =>
        rw [hrf] at hok
        simp only [if_neg hsame, if_true, failed_error_eq, Bool.true_eq_false, if_false] at hok ⊢
        have hsrcB : inoAt ((wA.emit (.rename tmp target)).emit
            (.log "Rename failed, fallback to copy approach. Error: %v")) tmp = some i :=
          inoAt_of_entry _ tmp i hsA hiA
        have hdstB : inoAt ((wA.emit (.rename tmp target)).emit
            (.log "Rename failed, fallback to copy approach. Error: %v")) target ≠ some i := by
          intro hcon
          have hcon2 : inoAt wA target = some i := hcon
          rcases hdir with h | ⟨-, h⟩
          · have heq : inoAt wA target = inoAt w target :=
              inoAt_congr w wA hloc hlim h hnext target
            rw [heq] at hcon2
            cases hT : w.dir (w.loc target) with
            | none =>
              rw [inoAt_of_empty w target hT] at hcon2
              cases hcon2
            | some node =>
              cases node with
              | symlink q => exact hlink q hT hcon2
              | file j =>
                by_cases hj : j < w.next
                · rw [inoAt_of_entry w target j hT hj] at hcon2
                  cases hcon2
                  apply hsame
                  apply sameFile_of_entries wA tmp target i hsA
                  rw [h, hloc]
                  exact hT
                · simp [inoAt, resolve, follow, hT, hj] at hcon2
          · have hT : wA.dir (wA.loc target) = none := by
              rw [h, hloc]
              simp
            rw [inoAt_of_empty wA target hT] at hcon2
            cases hcon2
        by_cases hcf : failed (copyFileContents env ((wA.emit (.rename tmp target)).emit
            (.log "Rename failed, fallback to copy approach. Error: %v")) tmp target).2 = true
        · rw [if_pos hcf] at hok
          cases hok
        · have hcf2 : failed (copyFileContents env ((wA.emit (.rename tmp target)).emit
              (.log "Rename failed, fallback to copy approach. Error: %v")) tmp target).2 =
                false := by
            simpa using hcf
          obtain ⟨j, hj, hji, hbytes⟩ := copyFileContents_ok env _ tmp target i hsrcB hdstB hcf2
          obtain ⟨hlocC, -, -, hdirC⟩ := copyFileContents_frame env
            ((wA.emit (.rename tmp target)).emit
              (.log "Rename failed, fallback to copy approach. Error: %v")) tmp target
          rw [if_neg hcf]
          generalize copyFileContents env ((wA.emit (.rename tmp target)).emit
            (.log "Rename failed, fallback to copy approach. Error: %v")) tmp target = c
            at hj hbytes hlocC hdirC
          have hlocC2 : c.1.loc = wA.loc := hlocC
          have hdirC2 : ∀ l, (wA.dir l).isSome → c.1.dir l = wA.dir l := hdirC
          have hsC : c.1.dir (c.1.loc tmp) = some (.file i) := by
            rw [hlocC2, hdirC2 _ (by rw [hsA]; rfl)]
            exact hsA
          have hb2 : (c.1.files j).bytes = (w.files i).bytes := by
            rw [hbytes]
            show (wA.files i).bytes = _
            rw [hfiles]
          refine ⟨j, ?_, ?_⟩
          · unfold osRemove
            cases env.removeTmpFault with
            | true => exact hj
            | false =>
              have hsC2 : (c.1.emit (.remove tmp)).dir ((c.1.emit (.remove tmp)).loc tmp) =
                  some (.file i) := hsC
              simp only [Bool.false_eq_true, if_false, hsC2]
              exact inoAt_remove (c.1.emit (.remove tmp)) target _ i j hsC2 hj hji
          · unfold osRemove
            cases env.removeTmpFault with
            | true => exact hb2
            | false =>
              have hsC2 : (c.1.emit (.remove tmp)).dir ((c.1.emit (.remove tmp)).loc tmp) =
                  some (.file i) := hsC
              simp only [Bool.false_eq_true, if_false, hsC2]
              exact hb2

theorem osRemove_loc (fault : Bool) (w : World) (p : Path) :
    (osRemove fault w p).1.loc = w.loc := by
  unfold osRemove
  cases fault <;> cases h : w.dir (w.loc p) <;> simp [World.emit, World.setEntry, h]

/-- After a removal that was not refused there is no entry under the name. -/
theorem osRemove_gone (w : World) (p : Path) :
    (osRemove false w p).1.dir (w.loc p) = none := by
  unfold osRemove
  cases h : w.dir (w.loc p) <;> simp [World.emit, World.setEntry, h]

/-- With a regular file at the staging path and a target that is another entry
and not a second link to that file, the rename finds the staging file in place
and the two do not name the same file. -/
theorem removeOld_distinct (env : Env) (w : World) (tmp target : Path) (i : Ino)
    (hs : w.dir (w.loc tmp) = some (.file i)) (hne : w.loc tmp ≠ w.loc target)
    (hhard : w.dir (w.loc target) ≠ some (.file i)) :
    (removeOld env w target).dir ((removeOld env w target).loc tmp) = some (.file i) ∧
    sameFile (removeOld env w target) tmp target = false := by
  obtain ⟨hloc, -, -, -, -, hdir⟩ := removeOld_spec env w target
  generalize removeOld env w target = wA at hloc hdir ⊢
  have hsA : wA.dir (wA.loc tmp) = some (.file i) := by
    rcases hdir with h | ⟨-, h⟩
    · rw [h, hloc]; exact hs
    · rw [h, hloc]
      simp [hne, hs]
  refine ⟨hsA, ?_⟩
  cases hsame : sameFile wA tmp target with
  | false => rfl
  | true =>
    have hT := sameFile_entry wA tmp target i hsA hsame
    rcases hdir with h | ⟨-, h⟩
    · rw [h, hloc] at hT
      exact absurd hT hhard
    · rw [h, hloc] at hT
      simp at hT

/-- Under the same conditions the rename fails exactly when it is refused. -/
theorem osRename_distinct (env : Env) (w : World) (tmp target : Path) (i : Ino)
    (hs : w.dir (w.loc tmp) = some (.file i)) (hne : w.loc tmp ≠ w.loc target)
    (hhard : w.dir (w.loc target) ≠ some (.file i)) :
    failed (osRename env.renameFault (removeOld env w target) tmp target).2 =
      env.renameFault := by
  obtain ⟨hsA, hsame⟩ := removeOld_distinct env w tmp target i hs hne hhard
  rw [osRename_of_entry env.renameFault _ tmp target _ hsA, hsame]
  cases env.renameFault <;> simp [failed_ok_eq, failed_error_eq]

/-- REPLACE under the same conditions: when it succeeds, and the rename
succeeded or the removal of the staging file is not refused, no entry is left
at the staging path. -/
theorem replaceStep_staging (env : Env) (w : World) (tmp target : Path) (i : Ino)
    (hs : w.dir (w.loc tmp) = some (.file i)) (hne : w.loc tmp ≠ w.loc target)
    (hhard : w.dir (w.loc target) ≠ some (.file i))
    (hok : (replaceStep env w tmp target).2 = true)
    (hor : env.renameFault = false ∨ env.removeTmpFault = false) :
    (replaceStep env w tmp target).1.dir (w.loc tmp) = none := by
  obtain ⟨hsA, hsame⟩ := removeOld_distinct env w tmp target i hs hne hhard
  obtain ⟨hloc, -, -, -, -, -⟩ := removeOld_spec env w target
  rw [replaceStep_eq] at hok ⊢
  generalize removeOld env w target = wA at hloc hsA hsame hok ⊢
  have hneA : wA.loc tmp ≠ wA.loc target := by rw [hloc]; exact hne
  rw [osRename_of_entry env.renameFault wA tmp target _ hsA, hsame] at hok ⊢
  cases hrf : env.renameFault with
  | false =>
    simp only [Bool.false_eq_true, if_false, failed_ok_eq, if_true]
    simp [World.emit, World.setEntry, hloc]
  | true =>
    have hrm : env.removeTmpFault = false := by
      rcases hor with h | h
      · rw [hrf] at h; cases h
      · exact h
    rw [hrf] at hok
    simp only [Bool.false_eq_true, if_false, if_true, failed_error_eq, Bool.true_eq_false]
      at hok ⊢
    obtain ⟨hlocC, -, -, -⟩ := copyFileContents_frame env ((wA.emit (.rename tmp target)).emit
      (.log "Rename failed, fallback to copy approach. Error: %v")) tmp target
    by_cases hcf : failed (copyFileContents env ((wA.emit (.rename tmp target)).emit
        (.log "Rename failed, fallback to copy approach. Error: %v")) tmp target).2 = true
    · rw [if_pos hcf] at hok
      cases hok
    · rw [if_neg hcf, hrm]
      generalize copyFileContents env ((wA.emit (.rename tmp target)).emit
        (.log "Rename failed, fallback to copy approach. Error: %v")) tmp target = c at hlocC
      have hlocC2 : c.1.loc = w.loc := hlocC.trans hloc
      have := osRemove_gone c.1 tmp
      rw [hlocC2] at this
      exact this

/-- REPLACE under the same conditions succeeds when the rename is not
refused. -/
theorem replaceStep_rename_ok (env : Env) (w : World) (tmp target : Path) (i : Ino)
    (hs : w.dir (w.loc tmp) = some (.file i)) (hne : w.loc tmp ≠ w.loc target)
    (hhard : w.dir (w.loc target) ≠ some (.file i)) (hr : env.renameFault = false) :
    (replaceStep env w tmp target).2 = true := by
  have h := osRename_distinct env w tmp target i hs hne hhard
  rw [hr] at h
  rw [replaceStep_eq, hr, if_pos h]

theorem replaceStep_loc (env : Env) (w : World) (tmp target : Path) :
    (replaceStep env w tmp target).1.loc = w.loc := by
  obtain ⟨hloc, -, -, -, -, -⟩ := removeOld_spec env w target
  have hren : (osRename env.renameFault (removeOld env w target) tmp target).1.loc = w.loc := by
    rw [← hloc]
    generalize removeOld env w target = wA
    unfold osRename sameFile
    cases hd : wA.dir (wA.loc tmp) <;> cases env.renameFault <;>
      simp [World.emit, World.setEntry, hd]
    all_goals split <;> rfl
  have hcopy := (copyFileContents_frame env
    ((osRename env.renameFault (removeOld env w target) tmp target).1.emit
      (.log "Rename failed, fallback to copy approach. Error: %v")) tmp target).1
  rw [replaceStep_eq]
  split
  · exact hren
  · split
    · exact hcopy.trans hren
    · rw [osRemove_loc]
      exact hcopy.trans hren

/-- The target after an install that did not end in the fatal exit, with a
regular file at the staging path and a target that is not a symbolic link
leading to it: the bytes of the staging file and, where `os.Chmod` is called
and succeeds, the executable bit. -/
theorem installed_target (env : Env) (tmp target : Path)
    (rest : List String) (w : World) (i : Ino)
    (hs : entryAt w tmp = some (.file i)) (hi : i < w.next)
    (hlink : ∀ q, entryAt w target = some (.symlink q) → inoAt w target ≠ some i)
    (hpast : (doUpdateInstall env (tmp :: target :: rest) w).2 ≠ .exited 1) :
    bytesAt (doUpdateInstall env (tmp :: target :: rest) w).1 target =
      some (w.files i).bytes ∧
    (env.goos ≠ "windows" → env.chmodFault = false →
      execAt (doUpdateInstall env (tmp :: target :: rest) w).1 target = some true) := by
  have hsS : (afterSleep w).dir ((afterSleep w).loc tmp) = some (.file i) := hs
  have hkey := replaceStep_bytes env (afterSleep w) tmp target i hsS hi hlink
  rcases hr : replaceStep env (afterSleep w) tmp target with ⟨w1, ok⟩
  rw [hr] at hkey
  cases ok with
  | false =>
    rw [doUpdateInstall_fatal env tmp target rest w w1 hr] at hpast
    exact absurd rfl hpast
  | true =>
    rw [doUpdateInstall_done env tmp target rest w w1 hr]
    obtain ⟨j, hj, hb⟩ := hkey rfl
    have hj1 : inoAt w1 target = some j := hj
    have hb1 : (w1.files j).bytes = (w.files i).bytes := hb
    obtain ⟨rloc, rlim, rdir, rnext, rbytes, rexec⟩ := relaunch_spec env w1 target
    have hino : inoAt ((relaunch env w1 target).emit (.log "Update installed. Exiting updater."))
        target = some j := by
      have h1 : inoAt ((relaunch env w1 target).emit (.log "Update installed. Exiting updater."))
          target = inoAt (relaunch env w1 target) target := rfl
      rw [h1, inoAt_congr w1 _ rloc rlim rdir rnext, hj1]
    refine ⟨?_, fun hg hc => ?_⟩
    · simp only [bytesAt, fileAt, hino, Option.map_some']
      show some ((relaunch env w1 target).files j).bytes = _
      rw [rbytes j, hb1]
    · simp only [execAt, fileAt, hino, Option.map_some']
      show some ((relaunch env w1 target).files j).exec = _
      rw [rexec j hj1 hg hc]

/-- C3 fails as stated: (1) on Linux, with a staging file that is not
executable, the rename succeeds, `os.Chmod` is refused and its error is dropped:
the installer exits with status 0 and the target is not executable; (2) with a
target that is a symbolic link to the staging file, in a directory where
removal and rename are refused, the fallback `os.Create` follows the link and
truncates the staging file before `io.Copy` reads it, and the staging file is
then removed: the installer exits with status 0 and the target leads to no
file, while the staging file held four bytes; (3) with no file at the target and
an `os.Remove` that fails with another error than not-exist (the target cannot
be reached), the deletion step logs its warning. -/
theorem doUpdateInstall_replace_counterexample :
    (fileAt stagedWorld "/tmp/new" = some ⟨[7, 8, 9, 10], false⟩ ∧
      chmodFailEnv.goos ≠ "windows" ∧
      (doUpdateInstall chmodFailEnv ["/tmp/new", "/opt/app"] stagedWorld).2 = .exited 0 ∧
      fileAt (doUpdateInstall chmodFailEnv ["/tmp/new", "/opt/app"] stagedWorld).1 "/opt/app" =
        some ⟨[7, 8, 9, 10], false⟩) ∧
    (bytesAt symlinkWorld "/tmp/new" = some [7, 8, 9, 10] ∧
      entryAt symlinkWorld "/opt/current" = some (.symlink "/tmp/new") ∧
      (doUpdateInstall lockedDirEnv ["/tmp/new", "/opt/current"] symlinkWorld).2 =
        .exited 0 ∧
      bytesAt (doUpdateInstall lockedDirEnv ["/tmp/new", "/opt/current"] symlinkWorld).1
        "/opt/current" = none) ∧
    (entryAt freshWorld "/opt/app" = none ∧
      newEvents freshWorld (beforeRename unreachableTargetEnv freshWorld "/opt/app") =
        [.log "Updater started with tmpfile=%s, targetPath=%s", .sleep 1,
          .remove "/opt/app", .log "Warning: could not remove old file: %v"]) := by
  decide

/-- C3, amended: with a regular file at the staging path and a target path,
with or without a file there, that is not a symbolic link leading to the
staging file, a run that does not end in the fatal exit leaves the target with
the bytes the staging file held; on a platform other than Windows the target
is executable when `os.Chmod` succeeds; and with no entry at the target the
removal changes no entry and no file, and logs nothing when `os.Remove`
reports the file as missing. -/
theorem doUpdateInstall_replace_postcondition (env : Env) (tmp target : Path)
    (rest : List String) (w : World) (i : Ino)
    (hs : entryAt w tmp = some (.file i)) (hi : i < w.next)
    (hlink : ∀ q, entryAt w target = some (.symlink q) → inoAt w target ≠ some i)
    (hpast : (doUpdateInstall env (tmp :: target :: rest) w).2 ≠ .exited 1) :
    bytesAt w tmp = some (w.files i).bytes ∧
    bytesAt (doUpdateInstall env (tmp :: target :: rest) w).1 target =
      some (w.files i).bytes ∧
    (env.goos ≠ "windows" → env.chmodFault = false →
      execAt (doUpdateInstall env (tmp :: target :: rest) w).1 target = some true) ∧
    (entryAt w target = none →
      (beforeRename env w target).dir = w.dir ∧
      (beforeRename env w target).files = w.files ∧
      (env.removeTargetFault = false →
        beforeRename env w target = (afterSleep w).emit (.remove target))) := by
  have hfirst : bytesAt w tmp = some (w.files i).bytes := by
    simp only [bytesAt, fileAt, inoAt_of_entry w tmp i hs hi, Option.map_some']
  have hlast : entryAt w target = none →
      (beforeRename env w target).dir = w.dir ∧
      (beforeRename env w target).files = w.files ∧
      (env.removeTargetFault = false →
        beforeRename env w target = (afterSleep w).emit (.remove target)) := by
    intro hT
    have hT2 : w.dir (w.loc target) = none := hT
    simp only [beforeRename, removeOld, osRemove]
    cases env.removeTargetFault <;> simp [World.emit, hT2]
  obtain ⟨hbytes, hexec⟩ := installed_target env tmp target rest w i hs hi hlink hpast
  exact ⟨hfirst, hbytes, hexec, hlast⟩

/-- Witness for C3: the staged update on Linux, nothing failing. -/
theorem doUpdateInstall_replace_postcondition_witness :
    bytesAt (doUpdateInstall okEnv ["/tmp/new", "/opt/app"] stagedWorld).1 "/opt/app" =
      some [7, 8, 9, 10] ∧
    execAt (doUpdateInstall okEnv ["/tmp/new", "/opt/app"] stagedWorld).1 "/opt/app" =
      some true :=
  have h := doUpdateInstall_replace_postcondition okEnv "/tmp/new" "/opt/app" [] stagedWorld 1
    (by decide) (by decide)
    (fun q hq => absurd (hq.symm.trans (by decide :
      entryAt stagedWorld "/opt/app" = some (.file 0))) (by simp))
    (by decide)
  ⟨h.2.1, h.2.2.1 (by decide) rfl⟩

/-- C4 fails as stated: (1) with the rename refused, a target that cannot be
created makes the fallback copy fail: fatal exit, the target keeps its old
bytes; (2) a staging file that can be read but not removed is still there after
a successful fallback copy; (3) with a target that is a symbolic link to the
staging file the rename is refused and the fallback truncates the staging file
before it reads it: status 0 and no bytes behind the target; (4) with a target
that is a second link to the staging file the rename succeeds without doing
anything, and the staging file stays. -/
theorem doUpdateInstall_fallback_counterexample :
    (renameFailed readOnlyTargetEnv stagedWorld "/tmp/new" "/opt/app" = true ∧
      bytesAt stagedWorld "/tmp/new" = some [7, 8, 9, 10] ∧
      (doUpdateInstall readOnlyTargetEnv ["/tmp/new", "/opt/app"] stagedWorld).2 = .exited 1 ∧
      bytesAt (doUpdateInstall readOnlyTargetEnv ["/tmp/new", "/opt/app"] stagedWorld).1
        "/opt/app" = some [1, 2, 3]) ∧
    (renameFailed keptStagingEnv stagedWorld "/tmp/new" "/opt/app" = true ∧
      (doUpdateInstall keptStagingEnv ["/tmp/new", "/opt/app"] stagedWorld).2 = .exited 0 ∧
      fileAt (doUpdateInstall keptStagingEnv ["/tmp/new", "/opt/app"] stagedWorld).1
        "/tmp/new" = some ⟨[7, 8, 9, 10], false⟩) ∧
    (renameFailed lockedDirEnv symlinkWorld "/tmp/new" "/opt/current" = true ∧
      bytesAt symlinkWorld "/tmp/new" = some [7, 8, 9, 10] ∧
      (doUpdateInstall lockedDirEnv ["/tmp/new", "/opt/current"] symlinkWorld).2 =
        .exited 0 ∧
      bytesAt (doUpdateInstall lockedDirEnv ["/tmp/new", "/opt/current"] symlinkWorld).1
        "/opt/current" = none) ∧
    (entryAt hardLinkWorld "/opt/hard" = entryAt hardLinkWorld "/tmp/new" ∧
      renameFailed lockedDirEnv hardLinkWorld "/tmp/new" "/opt/hard" = false ∧
      (doUpdateInstall lockedDirEnv ["/tmp/new", "/opt/hard"] hardLinkWorld).2 = .exited 0 ∧
      entryAt (doUpdateInstall lockedDirEnv ["/tmp/new", "/opt/hard"] hardLinkWorld).1
        "/tmp/new" = some (.file 1)) := by
  decide

/-- C4, amended: with a regular file at the staging path and a target that is
another name, not a second link to that file and not a symbolic link leading
to it, when the rename is refused and the fallback copy succeeds (no fatal
exit), the rename has failed and the target holds the bytes the staging file
held; the staging file is gone when its removal succeeds; and this is how the
run in which the rename succeeds ends: status 0, the same bytes at the target,
no entry at the staging path. -/
theorem doUpdateInstall_fallback_matches_rename (env : Env) (tmp target : Path)
    (rest : List String) (w : World) (i : Ino)
    (hs : entryAt w tmp = some (.file i)) (hi : i < w.next)
    (hne : w.loc tmp ≠ w.loc target)
    (hhard : entryAt w target ≠ some (.file i))
    (hlink : ∀ q, entryAt w target = some (.symlink q) → inoAt w target ≠ some i)
    (hrename : env.renameFault = true)
    (hcopy : (doUpdateInstall env (tmp :: target :: rest) w).2 = .exited 0) :
    (renameFailed env w tmp target = true ∧
      bytesAt (doUpdateInstall env (tmp :: target :: rest) w).1 target =
        some (w.files i).bytes ∧
      (env.removeTmpFault = false →
        entryAt (doUpdateInstall env (tmp :: target :: rest) w).1 tmp = none)) ∧
    ((doUpdateInstall { env with renameFault := false } (tmp :: target :: rest) w).2 =
        .exited 0 ∧
      bytesAt (doUpdateInstall { env with renameFault := false } (tmp :: target :: rest) w).1
        target = some (w.files i).bytes ∧
      entryAt (doUpdateInstall { env with renameFault := false } (tmp :: target :: rest) w).1
        tmp = none) := by
  have hsS : (afterSleep w).dir ((afterSleep w).loc tmp) = some (.file i) := hs
  have hneS : (afterSleep w).loc tmp ≠ (afterSleep w).loc target := hne
  have hhardS : (afterSleep w).dir ((afterSleep w).loc target) ≠ some (.file i) := hhard
  have main : ∀ e : Env,
      (doUpdateInstall e (tmp :: target :: rest) w).2 = .exited 0 →
      bytesAt (doUpdateInstall e (tmp :: target :: rest) w).1 target =
        some (w.files i).bytes ∧
      ((e.renameFault = false ∨ e.removeTmpFault = false) →
        entryAt (doUpdateInstall e (tmp :: target :: rest) w).1 tmp = none) := by
    intro e hexit
    have hpast : (doUpdateInstall e (tmp :: target :: rest) w).2 ≠ .exited 1 := by
      rw [hexit]; decide
    refine ⟨(installed_target e tmp target rest w i hs hi hlink hpast).1, fun hor => ?_⟩
    have hst := replaceStep_staging e (afterSleep w) tmp target i hsS hneS hhardS
    have hl := replaceStep_loc e (afterSleep w) tmp target
    rcases hr : replaceStep e (afterSleep w) tmp target with ⟨w1, ok⟩
    rw [hr] at hst hl
    cases ok with
    | false =>
      rw [doUpdateInstall_fatal e tmp target rest w w1 hr] at hexit
      cases hexit
    | true =>
      rw [doUpdateInstall_done e tmp target rest w w1 hr]
      obtain ⟨rloc, -, rdir, -, -, -⟩ := relaunch_spec e w1 target
      have hl1 : w1.loc = w.loc := hl
      show (relaunch e w1 target).dir ((relaunch e w1 target).loc tmp) = none
      rw [rdir, rloc, hl1]
      exact hst rfl hor
  have hdone : (doUpdateInstall { env with renameFault := false }
      (tmp :: target :: rest) w).2 = .exited 0 := by
    have hr := replaceStep_rename_ok { env with renameFault := false }
      (afterSleep w) tmp target i hsS hneS hhardS rfl
    rcases hr2 : replaceStep { env with renameFault := false }
      (afterSleep w) tmp target with ⟨w1, ok⟩
    rw [hr2] at hr
    simp only at hr
    subst hr
    rw [doUpdateInstall_done _ tmp target rest w w1 hr2]
  have hfailed : renameFailed env w tmp target = true := by
    have := osRename_distinct env (afterSleep w) tmp target i hsS hneS hhardS
    unfold renameFailed beforeRename
    rw [this]
    exact hrename
  obtain ⟨hb1, hg1⟩ := main env hcopy
  obtain ⟨hb2, hg2⟩ := main _ hdone
  exact ⟨⟨hfailed, hb1, fun h => hg1 (Or.inr h)⟩, hdone, hb2, hg2 (Or.inl rfl)⟩

/-- Witness for C4: the rename is refused, the copy and the removal succeed. -/
theorem doUpdateInstall_fallback_matches_rename_witness :
    (renameFailed { okEnv with renameFault := true } stagedWorld "/tmp/new" "/opt/app" = true ∧
      bytesAt (doUpdateInstall { okEnv with renameFault := true } ["/tmp/new", "/opt/app"]
        stagedWorld).1 "/opt/app" = some [7, 8, 9, 10] ∧
      entryAt (doUpdateInstall { okEnv with renameFault := true } ["/tmp/new", "/opt/app"]
        stagedWorld).1 "/tmp/new" = none) ∧
    ((doUpdateInstall okEnv ["/tmp/new", "/opt/app"] stagedWorld).2 = .exited 0 ∧
      bytesAt (doUpdateInstall okEnv ["/tmp/new", "/opt/app"] stagedWorld).1 "/opt/app" =
        some [7, 8, 9, 10] ∧
      entryAt (doUpdateInstall okEnv ["/tmp/new", "/opt/app"] stagedWorld).1 "/tmp/new" =
        none) :=
  have h := doUpdateInstall_fallback_matches_rename { okEnv with renameFault := true }
    "/tmp/new" "/opt/app" [] stagedWorld 1
    (by decide) (by decide) (by decide) (by decide)
    (fun q hq => absurd (hq.symm.trans (by decide :
      entryAt stagedWorld "/opt/app" = some (.file 0))) (by simp))
    rfl (by decide)
  ⟨⟨h.1.1, h.1.2.1, h.1.2.2 rfl⟩, h.2⟩

/-- The exit status of the installer called with two arguments or more. -/
theorem installer_exit_status (env : Env) (tmp target : Path) (rest : List String)
    (w : World) :
    exitStatus (main env true (tmp :: target :: rest) w).2 =
      if (renameFailed env w tmp target && copyFailed env w tmp target) = true
      then 1 else 0 := by
  simp only [main, if_true, doUpdateInstall, replaceStep, renameFailed, copyFailed,
    beforeRename]
  obtain ⟨⟨w1, r1⟩, h1⟩ : ∃ x, osRename env.renameFault
    (removeOld env (afterSleep w) target) tmp target = x :=
    ⟨_, rfl⟩
  simp only [h1]
  cases r1 with
  | ok u => simp [exitStatus, failed]
  | error e =>
    obtain ⟨⟨w2, r2⟩, h2⟩ : ∃ x, copyFileContents env
      (w1.emit (.log "Rename failed, fallback to copy approach. Error: %v")) tmp target = x :=
      ⟨_, rfl⟩
    simp only [h2]
    cases r2 <;> simp [exitStatus, failed]

/-- C5 fails as stated: in installer mode with no positional argument, and
with one, the process exits with status 0. -/
theorem main_installer_exit_counterexample :
    exitStatus (main okEnv true [] stagedWorld).2 = 0 ∧
    exitStatus (main okEnv true ["/tmp/new"] stagedWorld).2 = 0 := by
  decide

/-- C5, amended: in installer mode the exit status is 0 or 1, and it is not 0
in exactly one case: two positional arguments are there and both the rename and
the fallback copy fail.  With fewer than two arguments, and whatever the start
of the updated binary does, the status is 0. -/
theorem main_installer_exit_status (env : Env) (args : List String) (w : World) :
    (exitStatus (main env true args w).2 ≠ 0 ↔
      ∃ tmp target rest, args = tmp :: target :: rest ∧
        renameFailed env w tmp target = true ∧ copyFailed env w tmp target = true) ∧
    (exitStatus (main env true args w).2 = 0 ∨ exitStatus (main env true args w).2 = 1) ∧
    (args.length < 2 → exitStatus (main env true args w).2 = 0) := by
  match args with
  | [] => simp [main, doUpdateInstall, exitStatus]
  | [a] => simp [main, doUpdateInstall, exitStatus]
  | tmp :: target :: rest =>
    have key := installer_exit_status env tmp target rest w
    refine ⟨⟨fun h => ⟨tmp, target, rest, rfl, ?_⟩, fun h => ?_⟩, ?_,
      fun h => by simp only [List.length_cons] at h; omega⟩
    · by_cases hb : (renameFailed env w tmp target && copyFailed env w tmp target) = true
      · simpa using hb
      · rw [key, if_neg hb] at h
        exact absurd rfl h
    · obtain ⟨t, g, r, heq, hb1, hb2⟩ := h
      simp only [List.cons.injEq] at heq
      obtain ⟨rfl, rfl, -⟩ := heq
      rw [key, if_pos (by simp [hb1, hb2])]
      decide
    · rw [key]
      by_cases hb : (renameFailed env w tmp target && copyFailed env w tmp target) = true
      · right; rw [if_pos hb]
      · left; rw [if_neg hb]

/-- Witness for C5: with a target that cannot be replaced the rename and the
copy fail and the status is not 0; with one argument the status is 0. -/
theorem main_installer_exit_status_witness :
    exitStatus (main readOnlyTargetEnv true ["/tmp/new", "/opt/app"] stagedWorld).2 ≠ 0 ∧
    exitStatus (main readOnlyTargetEnv true ["/tmp/new"] stagedWorld).2 = 0 :=
  ⟨(main_installer_exit_status readOnlyTargetEnv ["/tmp/new", "/opt/app"] stagedWorld).1.2
      ⟨"/tmp/new", "/opt/app", [], rfl, by decide, by decide⟩,
    (main_installer_exit_status readOnlyTargetEnv ["/tmp/new"] stagedWorld).2.2 (by decide)⟩

/-- C6: in installer mode with fewer than two positional arguments
`doUpdateInstall` returns after one log line: the names, entries, files and
started processes are what they were, nothing was removed, renamed, created,
chmod-ed or slept on; and `main` returns with it, without a greeting or a
version check. -/
theorem doUpdateInstall_too_few_args (env : Env) (args : List String) (w : World)
    (h : args.length < 2) :
    (doUpdateInstall env args w).2 = .returned ∧
    ((doUpdateInstall env args w).1.loc = w.loc ∧
      (doUpdateInstall env args w).1.symlinkLimit = w.symlinkLimit ∧
      (doUpdateInstall env args w).1.dir = w.dir ∧
      (doUpdateInstall env args w).1.files = w.files ∧
      (doUpdateInstall env args w).1.next = w.next) ∧
    (doUpdateInstall env args w).1.procs = w.procs ∧
    newEvents w (doUpdateInstall env args w).1 =
      [.log "Updater usage: -update-install <tmpfile> <targetPath>"] ∧
    (main env true args w).2 = .returned ∧
    newEvents w (main env true args w).1 =
      [.log "Updater usage: -update-install <tmpfile> <targetPath>"] := by
  have hd : doUpdateInstall env args w =
      (w.emit (.log "Updater usage: -update-install <tmpfile> <targetPath>"), .returned) := by
    match args, h with
    | [], _ => rfl
    | [a], _ => rfl
    | a :: b :: rest, h => simp only [List.length_cons] at h; omega
  have hm : main env true args w = doUpdateInstall env args w := by simp [main]
  have hn : newEvents w (doUpdateInstall env args w).1 =
      [.log "Updater usage: -update-install <tmpfile> <targetPath>"] := by
    rw [hd]
    exact newEvents_eq w _ _ rfl
  refine ⟨?_, ?_, ?_, hn, ?_, ?_⟩
  · rw [hd]
  · rw [hd]; exact ⟨rfl, rfl, rfl, rfl, rfl⟩
  · rw [hd]; rfl
  · rw [hm, hd]
  · rw [hm]; exact hn

/-- Witness for C6: the installer called with the staging path only. -/
theorem doUpdateInstall_too_few_args_witness :
    (doUpdateInstall okEnv ["/tmp/new"] stagedWorld).2 = .returned ∧
    ((doUpdateInstall okEnv ["/tmp/new"] stagedWorld).1.loc = stagedWorld.loc ∧
      (doUpdateInstall okEnv ["/tmp/new"] stagedWorld).1.symlinkLimit =
        stagedWorld.symlinkLimit ∧
      (doUpdateInstall okEnv ["/tmp/new"] stagedWorld).1.dir = stagedWorld.dir ∧
      (doUpdateInstall okEnv ["/tmp/new"] stagedWorld).1.files = stagedWorld.files ∧
      (doUpdateInstall okEnv ["/tmp/new"] stagedWorld).1.next = stagedWorld.next) ∧
    (doUpdateInstall okEnv ["/tmp/new"] stagedWorld).1.procs = stagedWorld.procs ∧
    newEvents stagedWorld (doUpdateInstall okEnv ["/tmp/new"] stagedWorld).1 =
      [.log "Updater usage: -update-install <tmpfile> <targetPath>"] ∧
    (main okEnv true ["/tmp/new"] stagedWorld).2 = .returned ∧
    newEvents stagedWorld (main okEnv true ["/tmp/new"] stagedWorld).1 =
      [.log "Updater usage: -update-install <tmpfile> <targetPath>"] :=
  doUpdateInstall_too_few_args okEnv ["/tmp/new"] stagedWorld (by decide)

/-- C7 fails as stated: (1) when the rename and the fallback copy both fail the
installer ends with status 1 and the staging file is still there; (2) when the
fallback copy succeeds and the removal of the staging file is refused, the
installer ends with status 0 and the staging file is still there; (3) with the
target given as a second spelling of the staging path and the removal refused,
the rename onto itself succeeds and the file is, as it must be, still at that
path; (4) with a target that is a second link to the staging file, in a
directory where removal and rename are refused, the rename succeeds without
doing anything and the staging file stays. -/
theorem doUpdateInstall_staging_counterexample :
    ((doUpdateInstall readOnlyTargetEnv ["/tmp/new", "/opt/app"] stagedWorld).2 = .exited 1 ∧
      fileAt (doUpdateInstall readOnlyTargetEnv ["/tmp/new", "/opt/app"] stagedWorld).1
        "/tmp/new" = some ⟨[7, 8, 9, 10], false⟩) ∧
    ((doUpdateInstall keptStagingEnv ["/tmp/new", "/opt/app"] stagedWorld).2 = .exited 0 ∧
      bytesAt (doUpdateInstall keptStagingEnv ["/tmp/new", "/opt/app"] stagedWorld).1
        "/opt/app" = some [7, 8, 9, 10] ∧
      fileAt (doUpdateInstall keptStagingEnv ["/tmp/new", "/opt/app"] stagedWorld).1
        "/tmp/new" = some ⟨[7, 8, 9, 10], false⟩) ∧
    ((doUpdateInstall noRemoveEnv ["/opt/app", "/opt/./app"] appWorld).2 = .exited 0 ∧
      renameFailed noRemoveEnv appWorld "/opt/app" "/opt/./app" = false ∧
      fileAt (doUpdateInstall noRemoveEnv ["/opt/app", "/opt/./app"] appWorld).1 "/opt/app" =
        some ⟨[1, 2, 3], true⟩) ∧
    ((doUpdateInstall lockedDirEnv ["/tmp/new", "/opt/hard"] hardLinkWorld).2 = .exited 0 ∧
      renameFailed lockedDirEnv hardLinkWorld "/tmp/new" "/opt/hard" = false ∧
      fileAt (doUpdateInstall lockedDirEnv ["/tmp/new", "/opt/hard"] hardLinkWorld).1
        "/tmp/new" = some ⟨[7, 8, 9, 10], true⟩) := by
  decide

/-- C7, amended: for a run with a regular file at the staging path and a
target that is another name and not a second link to that file, that installs
the update (status 0): when the rename succeeded, or the fallback copy was
followed by a removal of the staging file that succeeded, no entry is left at
the staging path when the installer ends. -/
theorem doUpdateInstall_staging_file (env : Env) (tmp target : Path) (rest : List String)
    (w : World) (i : Ino)
    (hs : entryAt w tmp = some (.file i))
    (hne : w.loc tmp ≠ w.loc target)
    (hhard : entryAt w target ≠ some (.file i))
    (hexit : (doUpdateInstall env (tmp :: target :: rest) w).2 = .exited 0)
    (hor : renameFailed env w tmp target = false ∨ env.removeTmpFault = false) :
    entryAt (doUpdateInstall env (tmp :: target :: rest) w).1 tmp = none := by
  have hsS : (afterSleep w).dir ((afterSleep w).loc tmp) = some (.file i) := hs
  have hneS : (afterSleep w).loc tmp ≠ (afterSleep w).loc target := hne
  have hhardS : (afterSleep w).dir ((afterSleep w).loc target) ≠ some (.file i) := hhard
  have hor2 : env.renameFault = false ∨ env.removeTmpFault = false := by
    rcases hor with h | h
    · left
      have := osRename_distinct env (afterSleep w) tmp target i hsS hneS hhardS
      rw [← this]
      exact h
    · exact Or.inr h
  have hst := replaceStep_staging env (afterSleep w) tmp target i hsS hneS hhardS
  have hl := replaceStep_loc env (afterSleep w) tmp target
  rcases hr : replaceStep env (afterSleep w) tmp target with ⟨w1, ok⟩
  rw [hr] at hst hl
  cases ok with
  | false =>
    rw [doUpdateInstall_fatal env tmp target rest w w1 hr] at hexit
    cases hexit
  | true =>
    rw [doUpdateInstall_done env tmp target rest w w1 hr]
    obtain ⟨rloc, -, rdir, -, -, -⟩ := relaunch_spec env w1 target
    have hl1 : w1.loc = w.loc := hl
    show (relaunch env w1 target).dir ((relaunch env w1 target).loc tmp) = none
    rw [rdir, rloc, hl1]
    exact hst rfl hor2

/-- Witness for C7: the staged update with the rename refused and the staging
file removed after the copy. -/
theorem doUpdateInstall_staging_file_witness :
    entryAt (doUpdateInstall { okEnv with renameFault := true } ["/tmp/new", "/opt/app"]
      stagedWorld).1 "/tmp/new" = none :=
  doUpdateInstall_staging_file { okEnv with renameFault := true } "/tmp/new" "/opt/app" []
    stagedWorld 1 (by decide) (by decide) (by decide) (by decide) (Or.inr rfl)

end SelfUpdate
